import Mathlib

/-!
# Event pipeline of `Core`: bounded event queue, dispatcher, listener fan-out

Shallow embedding of

* `src/Core/Events/Event.hpp`  (namespace `Generic` below): the templated
  `EventDispatcher<TEvent>` and `EventQueue<TEvent>`;
* `src/Core/Events.hpp` and `src/Core/Application.{hpp,cpp}` (namespace `Core`
  below): the twelve event structs, the `Event` variant, `EventDispatcher`,
  the fixed-size `EventQueue` and `Application::ProcessEvents`.

Conventions.

* `usize` values are natural numbers below `2^64`; every `usize` operation of
  the source is written with an explicit `% usizeMod`.
* The atomics are read and written sequentially (single thread); memory
  orders have no counterpart here.
* An access `m_Buffer[i]` with `i` outside the buffer is undefined behaviour
  in the source; the embedding stops with `Fault.outOfBounds`.
* The `while` loop of `Poll` takes a bound on the number of times its body
  may run; when the bound is used up and the loop condition still holds the
  embedding stops with `Fault.outOfFuel`.
* `LOG_ERROR(msg)` is recorded as the list of lines a call wrote.
* `std::move(m_Buffer[head])` copies the slot: the event structs are
  trivially copyable, so the slot keeps its value.
-/

/-- The number of values of `usize` (64-bit target). -/
def usizeMod : Nat := 2 ^ 64

/-- Ways in which the embedding of a member function can fail to return. -/
inductive Fault where
  | outOfBounds
  | outOfFuel
  deriving DecidableEq, Repr

deriving instance DecidableEq for Except

namespace Generic

/-- What `Dispatch<T>` needs of the variant type `TEvent` and of the struct
type `T` (the constraints of the template, Events/Event.hpp, lines 7-11 and
23-24): `std::get_if<T>` on the variant, the variant after a write through
the pointer it returned, and the `handled` member that `T` inherits from
`BaseEvent`. -/
structure Alternative (TEvent T : Type) where
  get_if : TEvent → Option T
  store : T → TEvent
  handled : T → Bool
  setHandled : T → Bool → T

namespace EventDispatcher

/-- The member template `Dispatch<T>(func)` of `EventDispatcher<TEvent>`
(Events/Event.hpp, lines 23-32).  The record referred to by `m_Event` is
passed in and returned; the callable is a function of the struct and of the
state `σ` it captures. -/
def Dispatch {TEvent T σ : Type} (alt : Alternative TEvent T) (func : T → σ → Bool × σ)
    (m_Event : TEvent) (s : σ) : TEvent × σ :=
  match alt.get_if m_Event with
  | some event =>
    if !alt.handled event then
      let r := func event s
      (alt.store (alt.setHandled event r.1), r.2)
    else
      (m_Event, s)
  | none => (m_Event, s)

end EventDispatcher

/-- The data members of `EventQueue<TEvent>` (Events/Event.hpp, lines 89-94). -/
structure EventQueue (TEvent : Type) where
  m_Head : Nat
  m_Tail : Nat
  m_QueueSize : Nat
  m_Buffer : List TEvent
  deriving DecidableEq, Repr

namespace EventQueue

variable {TEvent : Type}

set_option linter.dupNamespace false in
/-- The object the constructor `EventQueue(usize queueSize)` leaves when it
returns: both cursors start at `0` (member initialisers),
`m_QueueSize(queueSize)`, and `m_Buffer.resize(m_QueueSize)` fills the buffer
with value-initialised records.  Whether the constructor returns at all is
the matter of `construct` below. -/
def EventQueue [Inhabited TEvent] (queueSize : Nat) : Generic.EventQueue TEvent :=
  { m_Head := 0
    m_Tail := 0
    m_QueueSize := queueSize
    m_Buffer := List.replicate queueSize default }

/-- The expression `(i + 1) & (m_QueueSize - 1)` on `usize`, used for
`nextTail` in `Push` and for advancing `head` in `Poll`. -/
def advance (m_QueueSize i : Nat) : Nat :=
  ((i + 1) % usizeMod) &&& ((m_QueueSize + usizeMod - 1) % usizeMod)

/-- The member function `Push` (Events/Event.hpp, lines 57-69).  The result
is the queue after the call together with the lines written by `LOG_ERROR`. -/
def Push (q : Generic.EventQueue TEvent) (event : TEvent) :
    Except Fault (Generic.EventQueue TEvent × List String) :=
  let tail := q.m_Tail
  let nextTail := advance q.m_QueueSize tail
  if nextTail = q.m_Head then
    .ok (q, ["Event queue full"])
  else if tail < q.m_Buffer.length then
    .ok ({ q with m_Buffer := q.m_Buffer.set tail event, m_Tail := nextTail }, [])
  else
    .error Fault.outOfBounds

/-- The loop `while (head != tail) { polled.push_back(m_Buffer[head]);
head = (head + 1) & (m_QueueSize - 1); }` of `Poll`; `fuel` bounds the number
of times the body runs.  Returns `polled` and the final `head`. -/
def pollLoop (q : Generic.EventQueue TEvent) :
    Nat → List TEvent → Nat → Nat → Except Fault (List TEvent × Nat)
  | fuel, polled, head, tail =>
    if head = tail then
      .ok (polled, head)
    else
      match fuel with
      | 0 => .error Fault.outOfFuel
      | fuel + 1 =>
        match q.m_Buffer[head]? with
        | none => .error Fault.outOfBounds
        | some ev => pollLoop q fuel (polled ++ [ev]) (advance q.m_QueueSize head) tail

/-- The member function `Poll` (Events/Event.hpp, lines 71-87): the returned
vector and the queue after `m_Head.store(head)`. -/
def Poll (fuel : Nat) (q : Generic.EventQueue TEvent) :
    Except Fault (List TEvent × Generic.EventQueue TEvent) :=
  match pollLoop q fuel [] q.m_Head q.m_Tail with
  | .ok (polled, head) => .ok (polled, { q with m_Head := head })
  | .error f => .error f

/-- The expression `(tail - head) mod N`, the subtraction on `usize`: the
number of records the cursors say are queued. -/
def pending (q : Generic.EventQueue TEvent) (N : Nat) : Nat :=
  ((q.m_Tail + usizeMod - q.m_Head) % usizeMod) % N

/-- One call on a queue by its owner. -/
inductive Op (TEvent : Type) where
  | Push (event : TEvent)
  | Poll
  deriving DecidableEq, Repr

/-- What one call let its caller observe: for `Push` the lines it logged, for
`Poll` the vector it returned. -/
inductive Obs (TEvent : Type) where
  | Push (event : TEvent) (log : List String)
  | Poll (polled : List TEvent)
  deriving DecidableEq, Repr

/-- The call an observation belongs to. -/
def Obs.op : Obs TEvent → Op TEvent
  | .Push event _ => .Push event
  | .Poll _ => .Poll

/-- Perform one call; every `Poll` gets the loop bound `fuel`. -/
def step (fuel : Nat) (q : Generic.EventQueue TEvent) :
    Op TEvent → Except Fault (Generic.EventQueue TEvent × Obs TEvent)
  | .Push event =>
    match q.Push event with
    | .ok (q', log) => .ok (q', .Push event log)
    | .error f => .error f
  | .Poll =>
    match q.Poll fuel with
    | .ok (polled, q') => .ok (q', .Poll polled)
    | .error f => .error f

/-- Perform a sequence of calls, first to last, collecting the observations. -/
def run (fuel : Nat) : Generic.EventQueue TEvent → List (Op TEvent) →
    Except Fault (Generic.EventQueue TEvent × List (Obs TEvent))
  | q, [] => .ok (q, [])
  | q, op :: ops =>
    match step fuel q op with
    | .ok (q', o) =>
      match run fuel q' ops with
      | .ok (q'', os) => .ok (q'', o :: os)
      | .error f => .error f
    | .error f => .error f

/-- FIFO delivery read off a history of observations: `pending` lists the
events whose `Push` logged nothing (was not dropped) since the previous
`Poll`, oldest first; every `Poll` must have returned exactly that list. -/
def Fifo : List TEvent → List (Obs TEvent) → Prop
  | _, [] => True
  | pending, .Push event log :: h => Fifo (if log = [] then pending ++ [event] else pending) h
  | pending, .Poll polled :: h => polled = pending ∧ Fifo [] h

/-- The number of events a history shows as accepted: calls of `Push` that
logged nothing. -/
def accepted : List (Obs TEvent) → Nat
  | [] => 0
  | .Push _ log :: h => (if log = [] then 1 else 0) + accepted h
  | .Poll _ :: h => accepted h

/-- The number of events a history shows as returned by `Poll`. -/
def returned : List (Obs TEvent) → Nat
  | [] => 0
  | .Push _ _ :: h => returned h
  | .Poll polled :: h => polled.length + returned h

/-- What a call lets its caller observe on a queue that holds nothing and
accepts nothing: every `Push` logs the drop, every `Poll` returns the empty
vector. -/
def refused : Op TEvent → Obs TEvent
  | .Push event => .Push event ["Event queue full"]
  | .Poll => .Poll []

/-- A bounded first-in first-out list with room for `R - 1` events: the
behaviour the queue is meant to have, one call at a time. -/
def absStep (R : Nat) (l : List TEvent) : Op TEvent → List TEvent × Obs TEvent
  | .Push event =>
    if l.length + 1 = R then (l, .Push event ["Event queue full"])
    else (l ++ [event], .Push event [])
  | .Poll => ([], .Poll l)

/-- The bounded first-in first-out list over a sequence of calls. -/
def absRun (R : Nat) : List TEvent → List (Op TEvent) → List TEvent × List (Obs TEvent)
  | l, [] => (l, [])
  | l, op :: ops =>
    let r := absStep R l op
    let t := absRun R r.1 ops
    (t.1, r.2 :: t.2)

end EventQueue

end Generic


namespace Core

/-- The type `u32` of the source; values are below `2^32`. -/
abbrev u32 := Nat

/-- The type `i32` of the source. -/
abbrev i32 := Int

/-- The type `f32` of the source, as the bit pattern of the value: the code
embedded here only stores and copies such values. -/
abbrev f32 := Nat

/-- Modelled from the spec: `KeyCodes.hpp` is not among the sources; a
`KeyCode` is the integer value of the enumerator. -/
abbrev KeyCode := Nat

/-- Modelled from the spec: `KeyCodes.hpp` is not among the sources; a
`MouseButton` is the integer value of the enumerator. -/
abbrev MouseButton := Nat

/-- The struct `BaseEvent` (Events.hpp, line 19). -/
structure BaseEvent where
  handled : Bool := false
  deriving DecidableEq, Repr

structure WindowClosedEvent extends BaseEvent
  deriving DecidableEq, Repr

structure WindowResizedEvent extends BaseEvent where
  width : u32
  height : u32
  deriving DecidableEq, Repr

structure WindowMovedEvent extends BaseEvent where
  x : i32
  y : i32
  deriving DecidableEq, Repr

structure WindowMinimizeEvent extends BaseEvent where
  minimized : Bool
  deriving DecidableEq, Repr

structure WindowFocusEvent extends BaseEvent where
  focused : Bool
  deriving DecidableEq, Repr

structure KeyEvent extends BaseEvent where
  keycode : KeyCode
  deriving DecidableEq, Repr

structure KeyPressedEvent extends KeyEvent where
  «repeat» : Bool
  deriving DecidableEq, Repr

structure KeyReleasedEvent extends KeyEvent
  deriving DecidableEq, Repr

structure KeyTypedEvent extends BaseEvent where
  codepoint : u32
  deriving DecidableEq, Repr

structure MouseButtonEvent extends BaseEvent where
  button : MouseButton
  deriving DecidableEq, Repr

structure MouseButtonPressedEvent extends MouseButtonEvent
  deriving DecidableEq, Repr

structure MouseButtonReleasedEvent extends MouseButtonEvent
  deriving DecidableEq, Repr

structure MouseEvent extends BaseEvent where
  x : f32
  y : f32
  deriving DecidableEq, Repr

structure MouseMovedEvent extends MouseEvent
  deriving DecidableEq, Repr

structure MouseScrolledEvent extends MouseEvent
  deriving DecidableEq, Repr

/-- The variant `Event` (Events.hpp, lines 156-169): exactly one of the
twelve alternatives is active. -/
inductive Event where
  | WindowClosedEvent (e : Core.WindowClosedEvent)
  | WindowResizedEvent (e : Core.WindowResizedEvent)
  | WindowMovedEvent (e : Core.WindowMovedEvent)
  | WindowMinimizeEvent (e : Core.WindowMinimizeEvent)
  | WindowFocusEvent (e : Core.WindowFocusEvent)
  | KeyPressedEvent (e : Core.KeyPressedEvent)
  | KeyReleasedEvent (e : Core.KeyReleasedEvent)
  | KeyTypedEvent (e : Core.KeyTypedEvent)
  | MouseButtonPressedEvent (e : Core.MouseButtonPressedEvent)
  | MouseButtonReleasedEvent (e : Core.MouseButtonReleasedEvent)
  | MouseMovedEvent (e : Core.MouseMovedEvent)
  | MouseScrolledEvent (e : Core.MouseScrolledEvent)
  deriving DecidableEq, Repr

/-- A value-initialised `Event` holds its first alternative,
`WindowClosedEvent`, with `handled` false. -/
instance : Inhabited Event := ⟨.WindowClosedEvent {}⟩

/-- The template argument `T` of `Dispatch<T>`: one of the alternatives of
`Event`. -/
inductive Kind where
  | WindowClosedEvent
  | WindowResizedEvent
  | WindowMovedEvent
  | WindowMinimizeEvent
  | WindowFocusEvent
  | KeyPressedEvent
  | KeyReleasedEvent
  | KeyTypedEvent
  | MouseButtonPressedEvent
  | MouseButtonReleasedEvent
  | MouseMovedEvent
  | MouseScrolledEvent
  deriving DecidableEq, Repr

/-- The struct type named by a template argument. -/
@[reducible] def Kind.T : Kind → Type
  | .WindowClosedEvent => Core.WindowClosedEvent
  | .WindowResizedEvent => Core.WindowResizedEvent
  | .WindowMovedEvent => Core.WindowMovedEvent
  | .WindowMinimizeEvent => Core.WindowMinimizeEvent
  | .WindowFocusEvent => Core.WindowFocusEvent
  | .KeyPressedEvent => Core.KeyPressedEvent
  | .KeyReleasedEvent => Core.KeyReleasedEvent
  | .KeyTypedEvent => Core.KeyTypedEvent
  | .MouseButtonPressedEvent => Core.MouseButtonPressedEvent
  | .MouseButtonReleasedEvent => Core.MouseButtonReleasedEvent
  | .MouseMovedEvent => Core.MouseMovedEvent
  | .MouseScrolledEvent => Core.MouseScrolledEvent

/-- The index of the active alternative of a record (`std::variant::index`). -/
def Event.kind : Event → Kind
  | .WindowClosedEvent _ => .WindowClosedEvent
  | .WindowResizedEvent _ => .WindowResizedEvent
  | .WindowMovedEvent _ => .WindowMovedEvent
  | .WindowMinimizeEvent _ => .WindowMinimizeEvent
  | .WindowFocusEvent _ => .WindowFocusEvent
  | .KeyPressedEvent _ => .KeyPressedEvent
  | .KeyReleasedEvent _ => .KeyReleasedEvent
  | .KeyTypedEvent _ => .KeyTypedEvent
  | .MouseButtonPressedEvent _ => .MouseButtonPressedEvent
  | .MouseButtonReleasedEvent _ => .MouseButtonReleasedEvent
  | .MouseMovedEvent _ => .MouseMovedEvent
  | .MouseScrolledEvent _ => .MouseScrolledEvent

/-- The call `std::get_if<T>(&m_Event)`: the active alternative when it is
`T`, a null pointer otherwise. -/
def get_if : (K : Kind) → Event → Option K.T
  | .WindowClosedEvent, .WindowClosedEvent e => some e
  | .WindowResizedEvent, .WindowResizedEvent e => some e
  | .WindowMovedEvent, .WindowMovedEvent e => some e
  | .WindowMinimizeEvent, .WindowMinimizeEvent e => some e
  | .WindowFocusEvent, .WindowFocusEvent e => some e
  | .KeyPressedEvent, .KeyPressedEvent e => some e
  | .KeyReleasedEvent, .KeyReleasedEvent e => some e
  | .KeyTypedEvent, .KeyTypedEvent e => some e
  | .MouseButtonPressedEvent, .MouseButtonPressedEvent e => some e
  | .MouseButtonReleasedEvent, .MouseButtonReleasedEvent e => some e
  | .MouseMovedEvent, .MouseMovedEvent e => some e
  | .MouseScrolledEvent, .MouseScrolledEvent e => some e
  | _, _ => none

/-- The variant whose active alternative is the given struct: what `m_Event`
holds after a write through the pointer returned by `std::get_if<T>`. -/
def Kind.store : (K : Kind) → K.T → Event
  | .WindowClosedEvent, e => .WindowClosedEvent e
  | .WindowResizedEvent, e => .WindowResizedEvent e
  | .WindowMovedEvent, e => .WindowMovedEvent e
  | .WindowMinimizeEvent, e => .WindowMinimizeEvent e
  | .WindowFocusEvent, e => .WindowFocusEvent e
  | .KeyPressedEvent, e => .KeyPressedEvent e
  | .KeyReleasedEvent, e => .KeyReleasedEvent e
  | .KeyTypedEvent, e => .KeyTypedEvent e
  | .MouseButtonPressedEvent, e => .MouseButtonPressedEvent e
  | .MouseButtonReleasedEvent, e => .MouseButtonReleasedEvent e
  | .MouseMovedEvent, e => .MouseMovedEvent e
  | .MouseScrolledEvent, e => .MouseScrolledEvent e

/-- The member read `event->handled`. -/
def Kind.handled : (K : Kind) → K.T → Bool
  | .WindowClosedEvent, e => e.handled
  | .WindowResizedEvent, e => e.handled
  | .WindowMovedEvent, e => e.handled
  | .WindowMinimizeEvent, e => e.handled
  | .WindowFocusEvent, e => e.handled
  | .KeyPressedEvent, e => e.handled
  | .KeyReleasedEvent, e => e.handled
  | .KeyTypedEvent, e => e.handled
  | .MouseButtonPressedEvent, e => e.handled
  | .MouseButtonReleasedEvent, e => e.handled
  | .MouseMovedEvent, e => e.handled
  | .MouseScrolledEvent, e => e.handled

/-- The member write `event->handled = b`; no other member changes. -/
def Kind.setHandled : (K : Kind) → K.T → Bool → K.T
  | .WindowClosedEvent, e, b => { e with handled := b }
  | .WindowResizedEvent, e, b => { e with handled := b }
  | .WindowMovedEvent, e, b => { e with handled := b }
  | .WindowMinimizeEvent, e, b => { e with handled := b }
  | .WindowFocusEvent, e, b => { e with handled := b }
  | .KeyPressedEvent, e, b => { e with handled := b }
  | .KeyReleasedEvent, e, b => { e with handled := b }
  | .KeyTypedEvent, e, b => { e with handled := b }
  | .MouseButtonPressedEvent, e, b => { e with handled := b }
  | .MouseButtonReleasedEvent, e, b => { e with handled := b }
  | .MouseMovedEvent, e, b => { e with handled := b }
  | .MouseScrolledEvent, e, b => { e with handled := b }

/-- The `handled` flag of the active alternative of a record. -/
def Event.handled : Event → Bool
  | .WindowClosedEvent e => e.handled
  | .WindowResizedEvent e => e.handled
  | .WindowMovedEvent e => e.handled
  | .WindowMinimizeEvent e => e.handled
  | .WindowFocusEvent e => e.handled
  | .KeyPressedEvent e => e.handled
  | .KeyReleasedEvent e => e.handled
  | .KeyTypedEvent e => e.handled
  | .MouseButtonPressedEvent e => e.handled
  | .MouseButtonReleasedEvent e => e.handled
  | .MouseMovedEvent e => e.handled
  | .MouseScrolledEvent e => e.handled

/-- A record with its `handled` flag replaced and every other member kept. -/
def Event.withHandled : Event → Bool → Event
  | .WindowClosedEvent e, b => .WindowClosedEvent { e with handled := b }
  | .WindowResizedEvent e, b => .WindowResizedEvent { e with handled := b }
  | .WindowMovedEvent e, b => .WindowMovedEvent { e with handled := b }
  | .WindowMinimizeEvent e, b => .WindowMinimizeEvent { e with handled := b }
  | .WindowFocusEvent e, b => .WindowFocusEvent { e with handled := b }
  | .KeyPressedEvent e, b => .KeyPressedEvent { e with handled := b }
  | .KeyReleasedEvent e, b => .KeyReleasedEvent { e with handled := b }
  | .KeyTypedEvent e, b => .KeyTypedEvent { e with handled := b }
  | .MouseButtonPressedEvent e, b => .MouseButtonPressedEvent { e with handled := b }
  | .MouseButtonReleasedEvent e, b => .MouseButtonReleasedEvent { e with handled := b }
  | .MouseMovedEvent e, b => .MouseMovedEvent { e with handled := b }
  | .MouseScrolledEvent e, b => .MouseScrolledEvent { e with handled := b }

/-- The macro `BIT(x)`, `(1 << (x))` on `int` (Events.hpp, line 7); the
source uses it for `x` from 0 to 4 only, where the shift does not
overflow. -/
def BIT (x : Nat) : i32 := ((1 <<< x : Nat) : Int)

/-- The enumerator `None` of `EventCategory` (Events.hpp, line 11). -/
def EventCategory.None : i32 := 0

/-- The enumerator `EventCategoryWindow` (Events.hpp, line 12). -/
def EventCategoryWindow : i32 := BIT 0

/-- The enumerator `EventCategoryInput` (Events.hpp, line 13). -/
def EventCategoryInput : i32 := BIT 1

/-- The enumerator `EventCategoryKeyboard` (Events.hpp, line 14). -/
def EventCategoryKeyboard : i32 := BIT 2

/-- The enumerator `EventCategoryMouseButton` (Events.hpp, line 15). -/
def EventCategoryMouseButton : i32 := BIT 3

/-- The enumerator `EventCategoryMouse` (Events.hpp, line 16). -/
def EventCategoryMouse : i32 := BIT 4

/-- The static member `WindowClosedEvent::GetCategoryFlags` (line 24). -/
def WindowClosedEvent.GetCategoryFlags : i32 := EventCategoryWindow

/-- The static member `WindowResizedEvent::GetCategoryFlags` (line 34). -/
def WindowResizedEvent.GetCategoryFlags : i32 := EventCategoryWindow

/-- The static member `WindowMovedEvent::GetCategoryFlags` (line 44). -/
def WindowMovedEvent.GetCategoryFlags : i32 := EventCategoryWindow

/-- The static member `WindowMinimizeEvent::GetCategoryFlags` (line 53). -/
def WindowMinimizeEvent.GetCategoryFlags : i32 := EventCategoryWindow

/-- The static member `WindowFocusEvent::GetCategoryFlags` (line 62). -/
def WindowFocusEvent.GetCategoryFlags : i32 := EventCategoryWindow

/-- The static member `KeyEvent::GetCategoryFlags` (line 69), inherited by
`KeyPressedEvent` and `KeyReleasedEvent`. -/
def KeyEvent.GetCategoryFlags : i32 := Int.lor EventCategoryInput EventCategoryKeyboard

/-- The static member `KeyTypedEvent::GetCategoryFlags` (line 96). -/
def KeyTypedEvent.GetCategoryFlags : i32 := Int.lor EventCategoryInput EventCategoryKeyboard

/-- The static member `MouseButtonEvent::GetCategoryFlags` (line 103),
inherited by `MouseButtonPressedEvent` and `MouseButtonReleasedEvent`. -/
def MouseButtonEvent.GetCategoryFlags : i32 :=
  Int.lor EventCategoryInput EventCategoryMouseButton

/-- The static member `MouseEvent::GetCategoryFlags` (line 127), inherited by
`MouseMovedEvent` and `MouseScrolledEvent`. -/
def MouseEvent.GetCategoryFlags : i32 := Int.lor EventCategoryInput EventCategoryMouse

/-- The expression `T::GetCategoryFlags()` for each alternative `T` of
`Event`: the member of the struct itself where it declares one, of its base
struct otherwise.  The function is static: it takes no instance. -/
def Kind.GetCategoryFlags : Kind → i32
  | .WindowClosedEvent => WindowClosedEvent.GetCategoryFlags
  | .WindowResizedEvent => WindowResizedEvent.GetCategoryFlags
  | .WindowMovedEvent => WindowMovedEvent.GetCategoryFlags
  | .WindowMinimizeEvent => WindowMinimizeEvent.GetCategoryFlags
  | .WindowFocusEvent => WindowFocusEvent.GetCategoryFlags
  | .KeyPressedEvent => KeyEvent.GetCategoryFlags
  | .KeyReleasedEvent => KeyEvent.GetCategoryFlags
  | .KeyTypedEvent => KeyTypedEvent.GetCategoryFlags
  | .MouseButtonPressedEvent => MouseButtonEvent.GetCategoryFlags
  | .MouseButtonReleasedEvent => MouseButtonEvent.GetCategoryFlags
  | .MouseMovedEvent => MouseEvent.GetCategoryFlags
  | .MouseScrolledEvent => MouseEvent.GetCategoryFlags

/-- The variant `CoreEvents` of Events/CoreEvents.hpp lists the same twelve
structs with the same data members as `Event` (they differ from those of
Events.hpp only in lacking the static `GetCategoryFlags`), so it is the same
type here; this is what the generic dispatcher needs of it for the template
argument `K`. -/
def Kind.alternative (K : Kind) : Generic.Alternative Event K.T :=
  { get_if := get_if K
    store := K.store
    handled := K.handled
    setHandled := K.setHandled }

namespace EventDispatcher

/-- The member template `Dispatch<T>(func)` of `EventDispatcher`
(Events.hpp, lines 177-186).  The dispatcher holds a reference `m_Event` to
one record: the record is passed in and its value after the call is
returned.  The callable is a function of the struct and of the state `σ` it
captures; it returns its `bool` result and the captured state after the
call. -/
def Dispatch {σ : Type} (K : Kind) (func : K.T → σ → Bool × σ) (m_Event : Event) (s : σ) :
    Event × σ :=
  match get_if K m_Event with
  | some event =>
    if !K.handled event then
      let r := func event s
      (K.store (K.setHandled event r.1), r.2)
    else
      (m_Event, s)
  | none => (m_Event, s)

/-- A callable instrumented to record its invocations: every call appends
its tag and the struct it received (as a record) to a log kept next to the
captured state. -/
def logged {σ : Type} (tag : Nat) (K : Kind) (func : K.T → σ → Bool × σ) :
    K.T → σ × List (Nat × Event) → Bool × (σ × List (Nat × Event)) :=
  fun e s =>
    let r := func e s.1
    (r.1, (r.2, s.2 ++ [(tag, K.store e)]))

/-- One call `dispatcher.Dispatch<K>(func)`. -/
structure Call (σ : Type) where
  K : Kind
  func : K.T → σ → Bool × σ

/-- A sequence of `Dispatch` calls on the dispatcher of one record, first to
last. -/
def dispatchAll {σ : Type} : List (Call σ) → Event → σ → Event × σ
  | [], m_Event, s => (m_Event, s)
  | c :: rest, m_Event, s =>
    let r := Dispatch c.K c.func m_Event s
    dispatchAll rest r.1 r.2

end EventDispatcher

/-- The body of a listener, as far as the record and the state `σ` captured
by the listener are concerned.  A listener receives an `EventDispatcher&`,
whose only public member besides the constructor is `Dispatch`; so all it
can do is run code of its own on its state (`effect`), call
`Dispatch<K>(func)` on the dispatcher, and continue in a way that may depend
on its state (`next`), until it returns (`done`). -/
inductive Script (σ : Type) where
  | done : Script σ
  | effect (f : σ → σ) (next : Script σ) : Script σ
  | Dispatch (K : Kind) (func : K.T → σ → Bool × σ) (next : σ → Script σ) : Script σ

namespace Script

/-- Run the body of a listener on the dispatcher of one record: the listener
as a value of `Application::EventListenerFn`. -/
def exec {σ : Type} : Script σ → Event → σ → Event × σ
  | .done, event, s => (event, s)
  | .effect f next, event, s => next.exec event (f s)
  | .Dispatch K func next, event, s =>
    let r := EventDispatcher.Dispatch K func event s
    (next r.2).exec r.1 r.2

/-- The body of a listener with every callable it passes to `Dispatch`
instrumented by `EventDispatcher.logged`; its own code runs on the first
component of the state. -/
def logged {σ : Type} (tag : Nat) : Script σ → Script (σ × List (Nat × Event))
  | .done => .done
  | .effect f next => .effect (fun s => (f s.1, s.2)) (next.logged tag)
  | .Dispatch K func next =>
    .Dispatch K (EventDispatcher.logged tag K func) (fun s => (next s.1).logged tag)

end Script

/-- The constant `EventQueue::s_QueueSize` (Events.hpp, line 238). -/
def s_QueueSize : Nat := 256

/-- The data members of the class `EventQueue` of Events.hpp (lines 240-243);
`m_Buffer` is a `std::array<Event, s_QueueSize>`. -/
structure EventQueue where
  m_Head : Nat
  m_Tail : Nat
  m_Buffer : List Event
  deriving DecidableEq, Repr

namespace EventQueue

set_option linter.dupNamespace false in
/-- The defaulted constructor: both cursors `0`, every slot of the array a
value-initialised `Event`. -/
def EventQueue : Core.EventQueue :=
  { m_Head := 0
    m_Tail := 0
    m_Buffer := List.replicate s_QueueSize default }

/-- The expression `(i + 1) & (s_QueueSize - 1)` on `usize`. -/
def advance (i : Nat) : Nat :=
  ((i + 1) % usizeMod) &&& ((s_QueueSize + usizeMod - 1) % usizeMod)

/-- The member function `Push` (Events.hpp, lines 205-217): the queue after
the call and the lines written by `LOG_ERROR`. -/
def Push (q : Core.EventQueue) (event : Event) :
    Except Fault (Core.EventQueue × List String) :=
  let tail := q.m_Tail
  let nextTail := advance tail
  if nextTail = q.m_Head then
    .ok (q, ["Event queue full"])
  else if tail < q.m_Buffer.length then
    .ok ({ q with m_Buffer := q.m_Buffer.set tail event, m_Tail := nextTail }, [])
  else
    .error Fault.outOfBounds

/-- The `while` loop of `Poll` (Events.hpp, lines 227-230); `fuel` bounds the
number of times the body runs. -/
def pollLoop (q : Core.EventQueue) :
    Nat → List Event → Nat → Nat → Except Fault (List Event × Nat)
  | fuel, polled, head, tail =>
    if head = tail then
      .ok (polled, head)
    else
      match fuel with
      | 0 => .error Fault.outOfFuel
      | fuel + 1 =>
        match q.m_Buffer[head]? with
        | none => .error Fault.outOfBounds
        | some ev => pollLoop q fuel (polled ++ [ev]) (advance head) tail

/-- The member function `Poll` (Events.hpp, lines 219-235). -/
def Poll (fuel : Nat) (q : Core.EventQueue) :
    Except Fault (List Event × Core.EventQueue) :=
  match pollLoop q fuel [] q.m_Head q.m_Tail with
  | .ok (polled, head) => .ok (polled, { q with m_Head := head })
  | .error f => .error f

/-- Perform one call on the fixed queue; every `Poll` gets the loop bound
`fuel`. -/
def step (fuel : Nat) (q : Core.EventQueue) :
    Generic.EventQueue.Op Event → Except Fault (Core.EventQueue × Generic.EventQueue.Obs Event)
  | .Push event =>
    match q.Push event with
    | .ok (q', log) => .ok (q', .Push event log)
    | .error f => .error f
  | .Poll =>
    match q.Poll fuel with
    | .ok (polled, q') => .ok (q', .Poll polled)
    | .error f => .error f

/-- Perform a sequence of calls on the fixed queue, first to last, collecting
the observations. -/
def run (fuel : Nat) : Core.EventQueue → List (Generic.EventQueue.Op Event) →
    Except Fault (Core.EventQueue × List (Generic.EventQueue.Obs Event))
  | q, [] => .ok (q, [])
  | q, op :: ops =>
    match step fuel q op with
    | .ok (q', o) =>
      match run fuel q' ops with
      | .ok (q'', os) => .ok (q'', o :: os)
      | .error f => .error f
    | .error f => .error f

/-- The state of the fixed queue read as a state of the generic queue
constructed with `queueSize = s_QueueSize`. -/
def toGeneric (q : Core.EventQueue) : Generic.EventQueue Event :=
  { m_Head := q.m_Head
    m_Tail := q.m_Tail
    m_QueueSize := s_QueueSize
    m_Buffer := q.m_Buffer }

end EventQueue

/-- The type `Application::EventListenerFn`,
`std::function<void(EventDispatcher&)>`: a listener receives the dispatcher
of one record and may change that record (through the dispatcher) and the
state `σ` it captures. -/
abbrev EventListenerFn (σ : Type) := Event → σ → Event × σ

/-- The data members of `Application` read or written by `ProcessEvents` and
`RegisterOnEvent` (Application.hpp, lines 29-37); `s_EventListeners` is the
static listener vector. -/
structure Application (σ : Type) where
  m_Running : Bool
  m_Minimized : Bool
  m_EventQueue : EventQueue
  s_EventListeners : List (EventListenerFn σ)

namespace Application

variable {σ : Type}

/-- The static member `RegisterOnEvent` (Application.hpp, lines 20-23):
`s_EventListeners.push_back(fn)`. -/
def RegisterOnEvent (app : Application σ) (fn : EventListenerFn σ) : Application σ :=
  { app with s_EventListeners := app.s_EventListeners ++ [fn] }

/-- The loop `for (const auto& listener : s_EventListeners)
listener(dispatcher);` (Application.cpp, lines 54-56). -/
def listenersLoop : List (EventListenerFn σ) → Event → σ → Event × σ
  | [], event, w => (event, w)
  | listener :: rest, event, w =>
    let r := listener event w
    listenersLoop rest r.1 r.2

/-- The body of the outer loop of `ProcessEvents` for one record
(Application.cpp, lines 42-56).  The two lambdas capture `this`; the
listeners act on the state `w` outside the application object. -/
def processEvent (app : Application σ) (w : σ) (event : Event) :
    Application σ × σ × Event :=
  let r1 := EventDispatcher.Dispatch .WindowClosedEvent
    (fun _ (a : Application σ) => (true, { a with m_Running := false })) event app
  let r2 := EventDispatcher.Dispatch .WindowMinimizeEvent
    (fun e (a : Application σ) => (false, { a with m_Minimized := e.minimized })) r1.1 r1.2
  let r3 := listenersLoop r2.2.s_EventListeners r2.1 w
  (r2.2, r3.2, r3.1)

/-- The loop `for (auto& event : ...)` over the polled vector; the records
are returned as the loop left them. -/
def processLoop : List Event → Application σ → σ → Application σ × σ × List Event
  | [], app, w => (app, w, [])
  | event :: rest, app, w =>
    let r := processEvent app w event
    let t := processLoop rest r.1 r.2.1
    (t.1, t.2.1, r.2.2 :: t.2.2)

/-- The member function `ProcessEvents` (Application.cpp, lines 39-58): the
application and the listeners' state after the call, and the polled records
as they are when the loop ends. -/
def ProcessEvents (fuel : Nat) (app : Application σ) (w : σ) :
    Except Fault (Application σ × σ × List Event) :=
  match app.m_EventQueue.Poll fuel with
  | .ok (polled, q) => .ok (processLoop polled { app with m_EventQueue := q } w)
  | .error f => .error f

/-- A listener instrumented to record its invocations: every call appends
its tag and the record, as the dispatcher presented it on entry, to a log
kept next to the captured state. -/
def traced (tag : Nat) (fn : EventListenerFn σ) : EventListenerFn (σ × List (Nat × Event)) :=
  fun event s =>
    let r := fn event s.1
    (r.1, (r.2, s.2 ++ [(tag, event)]))

/-- The listeners of a list, instrumented with consecutive tags from `i`. -/
def tracedFrom : Nat → List (EventListenerFn σ) → List (EventListenerFn (σ × List (Nat × Event)))
  | _, [] => []
  | i, fn :: rest => traced i fn :: tracedFrom (i + 1) rest

/-- A record as the two built-in routes of `ProcessEvents` are meant to
leave it: a `WindowClosed` record is marked handled, any other record is
untouched. -/
def afterBuiltins (event : Event) : Event :=
  if event.kind = .WindowClosedEvent then event.withHandled true else event

/-- The invocations prescribed for one record: the listeners in registration
order, tagged from `i`, each receiving the record as the previous one left
it.  Returns the invocations, the record and the state after the last
listener. -/
def fanOut : Nat → List (EventListenerFn σ) → Event → σ → List (Nat × Event) × Event × σ
  | _, [], event, w => ([], event, w)
  | i, fn :: rest, event, w =>
    let r := fn event w
    let t := fanOut (i + 1) rest r.1 r.2
    ((i, event) :: t.1, t.2)

/-- The invocations prescribed for a polled vector: record after record in
polled order, each fanned out to all listeners after the built-in routes. -/
def expectedLog (fns : List (EventListenerFn σ)) : List Event → σ → List (Nat × Event)
  | [], _ => []
  | event :: rest, w =>
    let t := fanOut 0 fns (afterBuiltins event) w
    t.1 ++ expectedLog fns rest t.2.2

/-- Whether the built-in `WindowClosedEvent` route runs its callable on a
record: the record is a `WindowClosed` one with `handled` false. -/
def closes : Event → Bool
  | .WindowClosedEvent e => !e.handled
  | _ => false

/-- The value the built-in `WindowMinimizeEvent` route stores in
`m_Minimized` for a record, if it runs its callable: the record is a
`WindowMinimize` one with `handled` false. -/
def minimizeOf : Event → Option Bool
  | .WindowMinimizeEvent e => if e.handled then none else some e.minimized
  | _ => none

/-- The `minimized` member of the last `WindowMinimize` record with `handled`
false in a polled vector, if there is one. -/
def lastMinimize (polled : List Event) : Option Bool :=
  (polled.filterMap minimizeOf).getLast?

/-- A listener whose body is the single call `dispatcher.Dispatch<K>(func)`,
the callable instrumented with `tag`. -/
def routing {σ : Type} (tag : Nat) (K : Kind) (func : K.T → σ → Bool × σ) :
    EventListenerFn (σ × List (Nat × Event)) :=
  fun event s => EventDispatcher.Dispatch K (EventDispatcher.logged tag K func) event s

/-- The records on which the callable instrumented with `tag` was invoked,
in order of invocation, according to an invocation log. -/
def invocations (tag : Nat) (log : List (Nat × Event)) : List Event :=
  (log.filter (fun x => x.1 == tag)).map Prod.snd

/-- Any other registered listener: one that acts on the record through the
dispatcher only, its callables instrumented with the tag `0`. -/
def bystander {σ : Type} (sc : Script σ) : EventListenerFn (σ × List (Nat × Event)) :=
  (sc.logged 0).exec

/-- The fixed queue after `Push(WindowResizedEvent(800, 600))` and
`Push(KeyPressedEvent(256, false))` on a freshly constructed queue. -/
def scenarioQueue : EventQueue :=
  { m_Head := 0
    m_Tail := 2
    m_Buffer := [.WindowResizedEvent { width := 800, height := 600 },
                 .KeyPressedEvent { keycode := 256, «repeat» := false }] ++
                List.replicate 254 default }

/-- An application as constructed (running, not minimized, no listener
registered) whose queue holds the two events of `scenarioQueue`. -/
def scenarioApp (σ : Type) : Application σ :=
  { m_Running := true
    m_Minimized := false
    m_EventQueue := scenarioQueue
    s_EventListeners := [] }

/-- The fixed queue after `Push(WindowMinimizeEvent(true))`,
`Push(WindowClosedEvent())` and `Push(KeyPressedEvent(256, false))` on a
freshly constructed queue. -/
def closingQueue : EventQueue :=
  { m_Head := 0
    m_Tail := 3
    m_Buffer := [.WindowMinimizeEvent { minimized := true },
                 .WindowClosedEvent {},
                 .KeyPressedEvent { keycode := 256, «repeat» := false }] ++
                List.replicate 253 default }

/-- An application as constructed (running, not minimized) with the given
listeners registered, whose queue holds the three events of
`closingQueue`. -/
def closingApp {σ : Type} (listeners : List (EventListenerFn σ)) : Application σ :=
  { m_Running := true
    m_Minimized := false
    m_EventQueue := closingQueue
    s_EventListeners := listeners }

end Application

end Core

/-! ## The ring invariant of the generic queue -/

namespace Generic.EventQueue

variable {TEvent : Type}

/-- Representation invariant: the queue `q` behaves as a ring of `R` slots
holding the events `l`, oldest first, from slot `m_Head` on. -/
structure Ring (R : Nat) (q : Generic.EventQueue TEvent) (l : List TEvent) : Prop where
  pos : 0 < R
  adv : ∀ i, i < R → advance q.m_QueueSize i = (i + 1) % R
  buf : R ≤ q.m_Buffer.length
  head : q.m_Head < R
  len : l.length < R
  tail : q.m_Tail = (q.m_Head + l.length) % R
  slots : ∀ i, i < l.length → q.m_Buffer[(q.m_Head + i) % R]? = l[i]?

theorem add_mod_cases {R a b : Nat} (ha : a < R) (hb : b < R) :
    (a + b < R ∧ (a + b) % R = a + b) ∨ (R ≤ a + b ∧ (a + b) % R = a + b - R) := by
  rcases Nat.lt_or_ge (a + b) R with h | h
  · exact Or.inl ⟨h, Nat.mod_eq_of_lt h⟩
  · refine Or.inr ⟨h, ?_⟩
    rw [Nat.mod_eq_sub_mod h, Nat.mod_eq_of_lt (by omega)]

theorem advance_pow2 {k i : Nat} (hk : k < 64) (hi : i < 2 ^ k) :
    advance (2 ^ k) i = (i + 1) % 2 ^ k := by
  have hlt : 2 ^ k < 2 ^ 64 := Nat.pow_lt_pow_right (by decide) hk
  have hpos : 0 < 2 ^ k := Nat.pow_pos (by decide)
  unfold advance usizeMod
  have h1 : (i + 1) % 2 ^ 64 = i + 1 := Nat.mod_eq_of_lt (by omega)
  have h2 : (2 ^ k + 2 ^ 64 - 1) % 2 ^ 64 = 2 ^ k - 1 := by
    have : 2 ^ k + 2 ^ 64 - 1 = (2 ^ k - 1) + 2 ^ 64 := by omega
    rw [this, Nat.add_mod_right, Nat.mod_eq_of_lt (by omega)]
  rw [h1, h2, Nat.and_pow_two_sub_one_eq_mod]

theorem ring_init [Inhabited TEvent] {k : Nat} (hk : k < 64) :
    Ring (2 ^ k) (EventQueue (2 ^ k) : Generic.EventQueue TEvent) [] where
  pos := Nat.pow_pos (by decide)
  adv := fun i hi => advance_pow2 hk hi
  buf := by simp [EventQueue]
  head := by simp [EventQueue]
  len := by simp
  tail := by simp [EventQueue]
  slots := by simp

theorem ring_tail_lt {R : Nat} {q : Generic.EventQueue TEvent} {l : List TEvent}
    (h : Ring R q l) : q.m_Tail < R := by
  rw [h.tail]; exact Nat.mod_lt _ h.pos

theorem ring_full_iff {R : Nat} {q : Generic.EventQueue TEvent} {l : List TEvent}
    (h : Ring R q l) : advance q.m_QueueSize q.m_Tail = q.m_Head ↔ l.length + 1 = R := by
  have ht := ring_tail_lt h
  rw [h.adv _ ht]
  have hh := h.head
  have hl := h.len
  have htl := h.tail
  rcases add_mod_cases hh hl with ⟨h1, h2⟩ | ⟨h1, h2⟩ <;> rw [h2] at htl
  · rcases Nat.lt_or_ge (q.m_Tail + 1) R with h3 | h3
    · rw [Nat.mod_eq_of_lt h3]; omega
    · have : q.m_Tail + 1 = R := by omega
      rw [this, Nat.mod_self]; omega
  · rw [Nat.mod_eq_of_lt (by omega)]; omega

theorem ring_push_full {R : Nat} {q : Generic.EventQueue TEvent} {l : List TEvent}
    (h : Ring R q l) (hfull : l.length + 1 = R) (e : TEvent) :
    q.Push e = .ok (q, ["Event queue full"]) := by
  unfold Push
  simp only [(ring_full_iff h).2 hfull, if_true]

theorem ring_push_free {R : Nat} {q : Generic.EventQueue TEvent} {l : List TEvent}
    (h : Ring R q l) (hfree : l.length + 1 < R) (e : TEvent) :
    q.Push e = .ok ({ q with m_Buffer := q.m_Buffer.set q.m_Tail e,
                             m_Tail := (q.m_Tail + 1) % R }, []) ∧
    Ring R { q with m_Buffer := q.m_Buffer.set q.m_Tail e,
                    m_Tail := (q.m_Tail + 1) % R } (l ++ [e]) := by
  have ht := ring_tail_lt h
  have hnf : ¬ advance q.m_QueueSize q.m_Tail = q.m_Head := by
    rw [ring_full_iff h]; omega
  have hb := h.buf
  constructor
  · unfold Push
    rw [if_neg hnf, if_pos (show q.m_Tail < q.m_Buffer.length by omega), h.adv _ ht]
  · refine ⟨h.pos, h.adv, by simpa using hb, h.head, by simp; omega, ?_, ?_⟩
    · simp only [List.length_append, List.length_singleton]
      rw [h.tail, Nat.mod_add_mod, Nat.add_assoc]
    · intro i hi
      simp only [List.length_append, List.length_singleton] at hi
      have hh := h.head
      have hl := h.len
      have htl := h.tail
      rcases Nat.lt_or_ge i l.length with hil | hil
      · have hne : q.m_Tail ≠ (q.m_Head + i) % R := by
          rcases add_mod_cases hh hl with ⟨_, h2⟩ | ⟨_, h2⟩ <;> rw [h2] at htl <;>
          rcases add_mod_cases hh (show i < R by omega) with ⟨_, h4⟩ | ⟨_, h4⟩ <;> rw [h4] <;> omega
        simp only [List.getElem?_set_ne hne]
        rw [h.slots i hil, List.getElem?_append_left hil]
      · have hieq : i = l.length := by omega
        subst hieq
        rw [← h.tail]
        simp [List.getElem?_set_self (show q.m_Tail < q.m_Buffer.length by omega)]

theorem pollLoop_ring (q : Generic.EventQueue TEvent) {R : Nat}
    (hadv : ∀ i, i < R → advance q.m_QueueSize i = (i + 1) % R) (tail : Nat) :
    ∀ (l : List TEvent) (head fuel : Nat) (acc : List TEvent), head < R → l.length < R →
      tail = (head + l.length) % R →
      (∀ i, i < l.length → q.m_Buffer[(head + i) % R]? = l[i]?) →
      pollLoop q fuel acc head tail =
        if l.length ≤ fuel then .ok (acc ++ l, tail) else .error Fault.outOfFuel := by
  intro l
  induction l with
  | nil =>
    intro head fuel acc hh _ ht _
    have : head = tail := by simp [Nat.mod_eq_of_lt hh] at ht; exact ht.symm
    unfold pollLoop
    simp [this]
  | cons x l ih =>
    intro head fuel acc hh hl ht hs
    simp only [List.length_cons] at hl ht
    have hne : head ≠ tail := by
      rcases add_mod_cases hh hl with ⟨_, h2⟩ | ⟨_, h2⟩ <;> rw [h2] at ht <;> omega
    unfold pollLoop
    rw [if_neg hne]
    cases fuel with
    | zero => simp
    | succ fuel =>
      have h0 := hs 0 (by simp)
      simp only [Nat.add_zero, Nat.mod_eq_of_lt hh, List.getElem?_cons_zero] at h0
      simp only [h0, hadv head hh]
      rw [ih ((head + 1) % R) fuel (acc ++ [x]) (Nat.mod_lt _ (by omega)) (by omega)
        (by rw [ht, Nat.mod_add_mod]; congr 1; omega)
        (by
          intro i hi
          have := hs (i + 1) (by simp; omega)
          rw [List.getElem?_cons_succ] at this
          rw [← this, Nat.mod_add_mod]; congr 2; omega)]
      simp [List.length_cons]

theorem ring_poll {R : Nat} {q : Generic.EventQueue TEvent} {l : List TEvent}
    (h : Ring R q l) (fuel : Nat) :
    q.Poll fuel = (if l.length ≤ fuel then .ok (l, { q with m_Head := q.m_Tail })
      else .error Fault.outOfFuel) ∧
    Ring R { q with m_Head := q.m_Tail } [] := by
  constructor
  · unfold Poll
    rw [pollLoop_ring q h.adv q.m_Tail l q.m_Head fuel [] h.head h.len h.tail h.slots]
    by_cases hf : l.length ≤ fuel
    · simp only [if_pos hf, List.nil_append]
    · simp only [if_neg hf]
  · exact ⟨h.pos, h.adv, h.buf, ring_tail_lt h, by simp; exact h.pos,
      by simp [Nat.mod_eq_of_lt (ring_tail_lt h)], by simp⟩

/-- The queue simulates the bounded list: from a state representing `l`,
every sequence of calls returns, with the observations of the bounded list,
in a state representing what the bounded list then holds. -/
theorem run_ring {R : Nat} (fuel : Nat) (hfuel : R - 1 ≤ fuel) (ops : List (Op TEvent)) :
    ∀ (q : Generic.EventQueue TEvent) (l : List TEvent), Ring R q l →
      ∃ q', run fuel q ops = .ok (q', (absRun R l ops).2) ∧ Ring R q' (absRun R l ops).1 ∧
        q'.m_Buffer.length = q.m_Buffer.length := by
  induction ops with
  | nil => intro q l h; exact ⟨q, rfl, h, rfl⟩
  | cons op ops ih =>
    intro q l h
    cases op with
    | Push e =>
      by_cases hfull : l.length + 1 = R
      · obtain ⟨q', hr, hring, hsz⟩ := ih q l h
        refine ⟨q', ?_, ?_, hsz⟩
        · simp only [run, step, ring_push_full h hfull e, hr, absRun, absStep, if_pos hfull]
        · simpa only [absRun, absStep, if_pos hfull] using hring
      · have hfree : l.length + 1 < R := by have := h.len; omega
        obtain ⟨hp, hring1⟩ := ring_push_free h hfree e
        obtain ⟨q', hr, hring, hsz⟩ := ih _ _ hring1
        refine ⟨q', ?_, ?_, by simpa using hsz⟩
        · simp only [run, step, hp, hr, absRun, absStep, if_neg hfull]
        · simpa only [absRun, absStep, if_neg hfull] using hring
    | Poll =>
      obtain ⟨hp, hring1⟩ := ring_poll h fuel
      rw [if_pos (by have := h.len; omega)] at hp
      obtain ⟨q', hr, hring, hsz⟩ := ih _ _ hring1
      refine ⟨q', ?_, ?_, hsz⟩
      · simp only [run, step, hp, hr, absRun, absStep]
      · simpa only [absRun, absStep] using hring

theorem absRun_ops (R : Nat) (ops : List (Op TEvent)) :
    ∀ l : List TEvent, (absRun R l ops).2.map Obs.op = ops := by
  induction ops with
  | nil => intro l; rfl
  | cons op ops ih =>
    intro l
    cases op with
    | Push e =>
      by_cases hfull : l.length + 1 = R <;>
        simp [absRun, absStep, hfull, Obs.op, ih]
    | Poll => simp [absRun, absStep, Obs.op, ih]

theorem absRun_fifo (R : Nat) (ops : List (Op TEvent)) :
    ∀ l : List TEvent, Fifo l (absRun R l ops).2 := by
  induction ops with
  | nil => intro l; trivial
  | cons op ops ih =>
    intro l
    cases op with
    | Push e =>
      by_cases hfull : l.length + 1 = R
      · simpa [absRun, absStep, hfull, Fifo] using ih l
      · simpa [absRun, absStep, hfull, Fifo] using ih (l ++ [e])
    | Poll => simpa [absRun, absStep, Fifo] using ih []

theorem absRun_pushes (R : Nat) (es : List TEvent) :
    ∀ l : List TEvent, l.length + es.length < R →
      absRun R l (es.map Op.Push ++ [Op.Poll]) =
        ([], es.map (fun e => Obs.Push e []) ++ [Obs.Poll (l ++ es)]) := by
  induction es with
  | nil => intro l _; simp [absRun, absStep]
  | cons e es ih =>
    intro l hl
    simp only [List.length_cons] at hl
    have hfull : ¬ l.length + 1 = R := by omega
    simp [absRun, absStep, hfull, ih (l ++ [e]) (by simp; omega)]

theorem absRun_flood (R : Nat) (es : List TEvent) :
    ∀ l : List TEvent, l.length < R →
      absRun R l (es.map Op.Push ++ [Op.Poll]) =
        ([], (es.take (R - 1 - l.length)).map (fun e => Obs.Push e []) ++
             (es.drop (R - 1 - l.length)).map (fun e => Obs.Push e ["Event queue full"]) ++
             [Obs.Poll (l ++ es.take (R - 1 - l.length))]) := by
  induction es with
  | nil => intro l _; simp [absRun, absStep]
  | cons e es ih =>
    intro l hl
    by_cases hfull : l.length + 1 = R
    · have h0 : R - 1 - l.length = 0 := by omega
      have := ih l hl
      rw [h0] at this
      simp [absRun, absStep, hfull, h0, this]
    · obtain ⟨n, hn⟩ : ∃ n, R - 1 - l.length = n + 1 := ⟨R - 1 - l.length - 1, by omega⟩
      have hn' : R - 1 - (l ++ [e]).length = n := by simp; omega
      have := ih (l ++ [e]) (by simp; omega)
      rw [hn'] at this
      simp [absRun, absStep, hfull, hn, this]

theorem absRun_count (R : Nat) (ops : List (Op TEvent)) :
    ∀ l : List TEvent,
      (absRun R l ops).1.length + returned (absRun R l ops).2 =
        l.length + accepted (absRun R l ops).2 := by
  induction ops with
  | nil => intro l; simp [absRun, returned, accepted]
  | cons op ops ih =>
    intro l
    cases op with
    | Push e =>
      by_cases hfull : l.length + 1 = R
      · have := ih l
        simp only [absRun, absStep, if_pos hfull, returned, accepted]
        simp; omega
      · have := ih (l ++ [e])
        simp only [absRun, absStep, if_neg hfull, returned, accepted]
        simp at this ⊢; omega
    | Poll =>
      have := ih []
      simp only [absRun, absStep, returned, accepted]
      simp at this ⊢; omega

theorem ring_count {k : Nat} (hk : k < 64) {q : Generic.EventQueue TEvent} {l : List TEvent}
    (h : Ring (2 ^ k) q l) :
    ((q.m_Tail + usizeMod - q.m_Head) % usizeMod) % 2 ^ k = l.length := by
  have hlt : 2 ^ k < 2 ^ 64 := Nat.pow_lt_pow_right (by decide) hk
  have hh := h.head
  have hl := h.len
  have htl := h.tail
  have hsplit : (2 : Nat) ^ 64 = 2 ^ k * 2 ^ (64 - k) := by
    rw [← Nat.pow_add]; congr 1; omega
  have hm : 1 ≤ 2 ^ (64 - k) := Nat.pow_pos (by decide)
  unfold usizeMod
  rcases add_mod_cases hh hl with ⟨h1, h2⟩ | ⟨h1, h2⟩ <;> rw [h2] at htl
  · have e1 : q.m_Tail + 2 ^ 64 - q.m_Head = l.length + 2 ^ 64 := by omega
    have e2 : (l.length + 2 ^ 64) % 2 ^ 64 = l.length := by
      rw [Nat.add_mod_right]; exact Nat.mod_eq_of_lt (by omega)
    rw [e1, e2]; exact Nat.mod_eq_of_lt hl
  · obtain ⟨m, hm'⟩ : ∃ m, 2 ^ (64 - k) = m + 1 := ⟨2 ^ (64 - k) - 1, by omega⟩
    have h64 : (2 : Nat) ^ 64 = 2 ^ k * m + 2 ^ k := by rw [hsplit, hm', Nat.mul_succ]
    have e1 : q.m_Tail + 2 ^ 64 - q.m_Head = 2 ^ k * m + l.length := by omega
    have e2 : (2 ^ k * m + l.length) % 2 ^ 64 = 2 ^ k * m + l.length :=
      Nat.mod_eq_of_lt (by omega)
    rw [e1, e2, Nat.mul_add_mod]; exact Nat.mod_eq_of_lt hl

theorem ring_empty {R : Nat} {q : Generic.EventQueue TEvent} {l : List TEvent}
    (h : Ring R q l) (he : q.m_Head = q.m_Tail) : l = [] := by
  have hh := h.head
  have hl := h.len
  have htl := h.tail
  rcases add_mod_cases hh hl with ⟨h1, h2⟩ | ⟨h1, h2⟩ <;> rw [h2] at htl
  · exact List.length_eq_zero.1 (by omega)
  · omega

theorem advance_pow2_any {k : Nat} (hk : k < 64) (i : Nat) :
    advance (2 ^ k) i = (i + 1) % 2 ^ k := by
  have hlt : 2 ^ k < 2 ^ 64 := Nat.pow_lt_pow_right (by decide) hk
  have hpos : 0 < 2 ^ k := Nat.pow_pos (by decide)
  unfold advance usizeMod
  have h2 : (2 ^ k + 2 ^ 64 - 1) % 2 ^ 64 = 2 ^ k - 1 := by
    have : 2 ^ k + 2 ^ 64 - 1 = (2 ^ k - 1) + 2 ^ 64 := by omega
    rw [this, Nat.add_mod_right, Nat.mod_eq_of_lt (by omega)]
  rw [h2, Nat.and_pow_two_sub_one_eq_mod]
  exact Nat.mod_mod_of_dvd _ (Nat.pow_dvd_pow 2 (by omega))

/-! ## The fixed queue of Events.hpp behaves as the generic queue of capacity 256 -/

theorem core_advance (i : Nat) : Core.EventQueue.advance i = advance Core.s_QueueSize i := rfl

theorem core_push (q : Core.EventQueue) (e : Core.Event) :
    (Core.EventQueue.toGeneric q).Push e =
      (q.Push e).map (fun r => (Core.EventQueue.toGeneric r.1, r.2)) := by
  unfold Push Core.EventQueue.Push
  simp only [Core.EventQueue.toGeneric, core_advance]
  split
  · rfl
  · split <;> rfl

theorem core_pollLoop (q : Core.EventQueue) (fuel : Nat) :
    ∀ (polled : List Core.Event) (head tail : Nat),
      pollLoop (Core.EventQueue.toGeneric q) fuel polled head tail =
        Core.EventQueue.pollLoop q fuel polled head tail := by
  induction fuel with
  | zero =>
    intro polled head tail
    unfold pollLoop Core.EventQueue.pollLoop
    rfl
  | succ fuel ih =>
    intro polled head tail
    unfold pollLoop Core.EventQueue.pollLoop
    split
    · rfl
    · simp only [Core.EventQueue.toGeneric, core_advance]
      cases q.m_Buffer[head]? with
      | none => rfl
      | some ev => exact ih _ _ _

theorem core_poll (q : Core.EventQueue) (fuel : Nat) :
    (Core.EventQueue.toGeneric q).Poll fuel =
      (q.Poll fuel).map (fun r => (r.1, Core.EventQueue.toGeneric r.2)) := by
  unfold Poll Core.EventQueue.Poll
  rw [core_pollLoop]
  simp only [Core.EventQueue.toGeneric]
  cases Core.EventQueue.pollLoop q fuel [] q.m_Head q.m_Tail <;> rfl

theorem core_step (q : Core.EventQueue) (fuel : Nat) (op : Op Core.Event) :
    step fuel (Core.EventQueue.toGeneric q) op =
      (Core.EventQueue.step fuel q op).map (fun r => (Core.EventQueue.toGeneric r.1, r.2)) := by
  cases op with
  | Push e =>
    simp only [step, Core.EventQueue.step, core_push]
    cases q.Push e <;> rfl
  | Poll =>
    simp only [step, Core.EventQueue.step, core_poll]
    cases q.Poll fuel <;> rfl

theorem core_run (fuel : Nat) (ops : List (Op Core.Event)) :
    ∀ q : Core.EventQueue, run fuel (Core.EventQueue.toGeneric q) ops =
      (Core.EventQueue.run fuel q ops).map (fun r => (Core.EventQueue.toGeneric r.1, r.2)) := by
  induction ops with
  | nil => intro q; rfl
  | cons op ops ih =>
    intro q
    simp only [run, Core.EventQueue.run, core_step]
    cases Core.EventQueue.step fuel q op with
    | error f => rfl
    | ok r =>
      simp only [Except.map, ih]
      cases Core.EventQueue.run fuel r.1 ops <;> rfl

/-- A run of the generic queue from the image of a state of the fixed queue
that returns is matched by a run of the fixed queue that returns, with the
same observations. -/
theorem core_run_ok {fuel : Nat} {ops : List (Op Core.Event)} {q : Core.EventQueue}
    {g : Generic.EventQueue Core.Event} {h : List (Obs Core.Event)}
    (hr : run fuel (Core.EventQueue.toGeneric q) ops = .ok (g, h)) :
    ∃ q', Core.EventQueue.run fuel q ops = .ok (q', h) ∧ Core.EventQueue.toGeneric q' = g := by
  rw [core_run] at hr
  cases hc : Core.EventQueue.run fuel q ops with
  | error f => rw [hc] at hr; cases hr
  | ok r =>
    rw [hc] at hr
    simp only [Except.map, Except.ok.injEq, Prod.mk.injEq] at hr
    exact ⟨r.1, by rw [← hr.2], hr.1⟩

theorem core_fresh :
    Core.EventQueue.toGeneric Core.EventQueue.EventQueue = EventQueue (2 ^ 8) := rfl

/-! ## Claims about the queue -/

theorem core_size : Core.s_QueueSize = 2 ^ 8 := rfl

theorem core_toGeneric_inj {q q' : Core.EventQueue}
    (h : Core.EventQueue.toGeneric q = Core.EventQueue.toGeneric q') : q = q' := by
  cases q; cases q'
  simp only [Core.EventQueue.toGeneric, Generic.EventQueue.mk.injEq] at h
  obtain ⟨h1, h2, -, h3⟩ := h
  subst h1 h2 h3
  rfl

theorem core_push_ok {q : Core.EventQueue} {e : Core.Event} {g : Generic.EventQueue Core.Event}
    {log : List String} (hp : (Core.EventQueue.toGeneric q).Push e = .ok (g, log)) :
    ∃ q', q.Push e = .ok (q', log) ∧ Core.EventQueue.toGeneric q' = g := by
  rw [core_push] at hp
  cases hc : q.Push e with
  | error f => rw [hc] at hp; cases hp
  | ok r =>
    rw [hc] at hp
    simp only [Except.map, Except.ok.injEq, Prod.mk.injEq] at hp
    exact ⟨r.1, by rw [← hp.2], hp.1⟩

theorem core_poll_ok {q : Core.EventQueue} {fuel : Nat} {g : Generic.EventQueue Core.Event}
    {polled : List Core.Event} (hp : (Core.EventQueue.toGeneric q).Poll fuel = .ok (polled, g)) :
    ∃ q', q.Poll fuel = .ok (polled, q') ∧ Core.EventQueue.toGeneric q' = g := by
  rw [core_poll] at hp
  cases hc : q.Poll fuel with
  | error f => rw [hc] at hp; cases hp
  | ok r =>
    rw [hc] at hp
    simp only [Except.map, Except.ok.injEq, Prod.mk.injEq] at hp
    exact ⟨r.2, by rw [← hp.1], hp.2⟩

theorem fifo_generic [Inhabited TEvent] (k : Nat) (hk : k < 64) (fuel : Nat)
    (hfuel : 2 ^ k - 1 ≤ fuel) (ops : List (Op TEvent)) :
    ∃ q h, run fuel (EventQueue (2 ^ k)) ops = .ok (q, h) ∧ h.map Obs.op = ops ∧ Fifo [] h ∧
      (q.m_Head = q.m_Tail → ∀ es : List TEvent, es.length ≤ 2 ^ k - 1 →
        ∃ q', run fuel q (es.map Op.Push ++ [Op.Poll]) =
          .ok (q', es.map (fun e => Obs.Push e []) ++ [Obs.Poll es])) := by
  obtain ⟨q, hr, hring, _⟩ := run_ring fuel hfuel ops _ _ (@ring_init TEvent _ k hk)
  refine ⟨q, _, hr, absRun_ops _ _ _, absRun_fifo _ _ _, ?_⟩
  intro he es hes
  have hnil := ring_empty hring he
  rw [hnil] at hring
  obtain ⟨q', hr', _, _⟩ := run_ring fuel hfuel (es.map Op.Push ++ [Op.Poll]) _ _ hring
  have hpos : 0 < 2 ^ k := Nat.pow_pos (by decide)
  rw [absRun_pushes (2 ^ k) es [] (by simp; omega)] at hr'
  exact ⟨q', by simpa using hr'⟩

/-- C1 (FIFO delivery).  For the generic queue of capacity `2 ^ k` and every
sequence of `Push` and `Poll` calls from the freshly constructed queue, every
call returns, and every `Poll` returns exactly the events whose `Push` was
not dropped since the previous `Poll`, each once and in push order (`Fifo`).
In particular, from any state so reached in which the queue is empty
(`m_Head = m_Tail`, wherever the cursors stand), at most `2 ^ k - 1` pushes
followed by one `Poll` return the pushed list, none of them dropped.  The
same holds for the fixed queue of Events.hpp, of capacity 256. -/
theorem fifo_delivery [Inhabited TEvent] (k : Nat) (hk : k < 64) (fuel : Nat)
    (hfuel : 2 ^ k - 1 ≤ fuel) (ops : List (Op TEvent))
    (cfuel : Nat) (hcfuel : Core.s_QueueSize - 1 ≤ cfuel) (cops : List (Op Core.Event)) :
    (∃ q h, run fuel (EventQueue (2 ^ k)) ops = .ok (q, h) ∧ h.map Obs.op = ops ∧ Fifo [] h ∧
      (q.m_Head = q.m_Tail → ∀ es : List TEvent, es.length ≤ 2 ^ k - 1 →
        ∃ q', run fuel q (es.map Op.Push ++ [Op.Poll]) =
          .ok (q', es.map (fun e => Obs.Push e []) ++ [Obs.Poll es]))) ∧
    (∃ q h, Core.EventQueue.run cfuel Core.EventQueue.EventQueue cops = .ok (q, h) ∧
      h.map Obs.op = cops ∧ Fifo [] h ∧
      (q.m_Head = q.m_Tail → ∀ es : List Core.Event, es.length ≤ Core.s_QueueSize - 1 →
        ∃ q', Core.EventQueue.run cfuel q (es.map Op.Push ++ [Op.Poll]) =
          .ok (q', es.map (fun e => Obs.Push e []) ++ [Obs.Poll es]))) := by
  refine ⟨fifo_generic k hk fuel hfuel ops, ?_⟩
  obtain ⟨g, h, hr, hops, hfifo, hpart⟩ := fifo_generic 8 (by decide) cfuel hcfuel cops
  rw [← core_fresh] at hr
  obtain ⟨q, hq, hg⟩ := core_run_ok hr
  refine ⟨q, h, hq, hops, hfifo, ?_⟩
  intro he es hes
  subst hg
  obtain ⟨g', hr'⟩ := hpart he es hes
  obtain ⟨q', hq', -⟩ := core_run_ok hr'
  exact ⟨q', hq'⟩

/-- Witness of C1: on the generic queue of capacity 4, three pushes, a
dropped fourth, a `Poll`, and two more pushes that wrap the tail cursor; on
the fixed queue, the two pushes of the first scenario of the spec. -/
theorem fifo_delivery_witness :
    2 < 64 ∧ 2 ^ 2 - 1 ≤ 3 ∧ Core.s_QueueSize - 1 ≤ 255 ∧
    (∃ q h, run 3 (EventQueue (2 ^ 2) : Generic.EventQueue Nat)
        [.Push 1, .Push 2, .Push 3, .Push 4, .Poll, .Push 5, .Push 6] = .ok (q, h) ∧
      h.map Obs.op = [.Push 1, .Push 2, .Push 3, .Push 4, .Poll, .Push 5, .Push 6] ∧
      Fifo [] h) ∧
    (∃ q h, Core.EventQueue.run 255 Core.EventQueue.EventQueue
        [.Push (.WindowResizedEvent { width := 800, height := 600 }),
         .Push (.KeyPressedEvent { keycode := 256, «repeat» := false }), .Poll] = .ok (q, h) ∧
      Fifo [] h) :=
  have w := fifo_delivery 2 (by decide) 3 (by decide)
    ([.Push 1, .Push 2, .Push 3, .Push 4, .Poll, .Push 5, .Push 6] : List (Op Nat))
    255 (by decide)
    [.Push (.WindowResizedEvent { width := 800, height := 600 }),
     .Push (.KeyPressedEvent { keycode := 256, «repeat» := false }), .Poll]
  ⟨by decide, by decide, by decide,
    w.1.elim (fun q hq => hq.elim (fun h hh => ⟨q, h, hh.1, hh.2.1, hh.2.2.1⟩)),
    w.2.elim (fun q hq => hq.elim (fun h hh => ⟨q, h, hh.1, hh.2.2.1⟩))⟩

theorem flood_generic [Inhabited TEvent] (k : Nat) (hk : k < 64) (fuel : Nat)
    (hfuel : 2 ^ k - 1 ≤ fuel) (es : List TEvent) :
    ∃ q, run fuel (EventQueue (2 ^ k)) (es.map Op.Push ++ [Op.Poll]) =
      .ok (q, (es.take (2 ^ k - 1)).map (fun e => Obs.Push e []) ++
              (es.drop (2 ^ k - 1)).map (fun e => Obs.Push e ["Event queue full"]) ++
              [Obs.Poll (es.take (2 ^ k - 1))]) := by
  obtain ⟨q, hr, _, _⟩ :=
    run_ring fuel hfuel (es.map Op.Push ++ [Op.Poll]) _ _ (@ring_init TEvent _ k hk)
  rw [absRun_flood (2 ^ k) es [] (by simp)] at hr
  exact ⟨q, by simpa using hr⟩

/-- C2 (drop-on-full keeps the oldest).  Pushing any list `es` onto a freshly
constructed queue of capacity `N = 2 ^ k` and then polling: the first `N - 1`
pushes log nothing, every later push logs `Event queue full`, and the `Poll`
returns exactly the first `min es.length (N - 1)` events in order.  The same
holds for the fixed queue of Events.hpp with `N = 256`. -/
theorem drop_on_full_keeps_oldest [Inhabited TEvent] (k : Nat) (hk : k < 64) (fuel : Nat)
    (hfuel : 2 ^ k - 1 ≤ fuel) (es : List TEvent)
    (cfuel : Nat) (hcfuel : Core.s_QueueSize - 1 ≤ cfuel) (ces : List Core.Event) :
    (∃ q, run fuel (EventQueue (2 ^ k)) (es.map Op.Push ++ [Op.Poll]) =
      .ok (q, (es.take (2 ^ k - 1)).map (fun e => Obs.Push e []) ++
              (es.drop (2 ^ k - 1)).map (fun e => Obs.Push e ["Event queue full"]) ++
              [Obs.Poll (es.take (2 ^ k - 1))])) ∧
    (es.take (2 ^ k - 1)).length = min es.length (2 ^ k - 1) ∧
    (∃ q, Core.EventQueue.run cfuel Core.EventQueue.EventQueue (ces.map Op.Push ++ [Op.Poll]) =
      .ok (q, (ces.take (Core.s_QueueSize - 1)).map (fun e => Obs.Push e []) ++
              (ces.drop (Core.s_QueueSize - 1)).map (fun e => Obs.Push e ["Event queue full"]) ++
              [Obs.Poll (ces.take (Core.s_QueueSize - 1))])) := by
  refine ⟨flood_generic k hk fuel hfuel es, by rw [List.length_take, Nat.min_comm], ?_⟩
  obtain ⟨g, hr⟩ := flood_generic 8 (by decide) cfuel hcfuel ces
  rw [← core_fresh] at hr
  obtain ⟨q, hq, -⟩ := core_run_ok hr
  exact ⟨q, hq⟩

/-- Witness of C2: capacity 4 and the pushes `E1..E5` of the spec. -/
theorem drop_on_full_keeps_oldest_witness :
    2 < 64 ∧ 2 ^ 2 - 1 ≤ 3 ∧ Core.s_QueueSize - 1 ≤ 255 ∧
    ∃ q, run 3 (EventQueue (2 ^ 2) : Generic.EventQueue Nat)
        [.Push 1, .Push 2, .Push 3, .Push 4, .Push 5, .Poll] =
      .ok (q, [.Push 1 [], .Push 2 [], .Push 3 [], .Push 4 ["Event queue full"],
               .Push 5 ["Event queue full"], .Poll [1, 2, 3]]) :=
  ⟨by decide, by decide, by decide,
    (drop_on_full_keeps_oldest 2 (by decide) 3 (by decide) [1, 2, 3, 4, 5]
      255 (by decide) []).1⟩

theorem cursor_generic [Inhabited TEvent] (k : Nat) (hk : k < 64) (fuel : Nat)
    (hfuel : 2 ^ k - 1 ≤ fuel) (ops : List (Op TEvent)) :
    ∃ q h, run fuel (EventQueue (2 ^ k)) ops = .ok (q, h) ∧ h.map Obs.op = ops ∧
      q.m_Head < 2 ^ k ∧ q.m_Tail < 2 ^ k ∧ q.m_Buffer.length = 2 ^ k ∧
      ((q.m_Tail + usizeMod - q.m_Head) % usizeMod) % 2 ^ k + returned h = accepted h ∧
      ((q.m_Tail + usizeMod - q.m_Head) % usizeMod) % 2 ^ k ≤ 2 ^ k - 1 ∧
      ∀ e : TEvent, ∃ q' log, q.Push e = .ok (q', log) ∧
        (log ≠ [] ↔ ((q.m_Tail + usizeMod - q.m_Head) % usizeMod) % 2 ^ k = 2 ^ k - 1) := by
  obtain ⟨q, hr, hring, hlen⟩ := run_ring fuel hfuel ops _ _ (@ring_init TEvent _ k hk)
  have hcount := ring_count hk hring
  have hl := hring.len
  refine ⟨q, _, hr, absRun_ops _ _ _, hring.head, ring_tail_lt hring,
    by simpa [EventQueue] using hlen, ?_, by omega, ?_⟩
  · rw [hcount]
    simpa using absRun_count (2 ^ k) ops ([] : List TEvent)
  · intro e
    rw [hcount]
    by_cases hfull : (absRun (2 ^ k) ([] : List TEvent) ops).1.length + 1 = 2 ^ k
    · exact ⟨q, _, ring_push_full hring hfull e, by simp; omega⟩
    · exact ⟨_, _, (ring_push_free hring (by omega) e).1, by simp; omega⟩

/-- C4 (cursor invariant).  After every sequence of calls on a fresh queue of
capacity `N = 2 ^ k`: every call returned (no access was out of bounds), both
cursors are below `N`, which is the length of the buffer, `(tail - head) mod N`
(the subtraction on `usize`) plus the number of events returned by `Poll` is
the number of accepted events, it is at most `N - 1`, and a further `Push`
returns and logs the drop exactly when that count is `N - 1`.  The same holds
for the fixed queue of Events.hpp with `N = 256`. -/
theorem cursor_invariant [Inhabited TEvent] (k : Nat) (hk : k < 64) (fuel : Nat)
    (hfuel : 2 ^ k - 1 ≤ fuel) (ops : List (Op TEvent))
    (cfuel : Nat) (hcfuel : Core.s_QueueSize - 1 ≤ cfuel) (cops : List (Op Core.Event)) :
    (∃ q h, run fuel (EventQueue (2 ^ k)) ops = .ok (q, h) ∧ h.map Obs.op = ops ∧
      q.m_Head < 2 ^ k ∧ q.m_Tail < 2 ^ k ∧ q.m_Buffer.length = 2 ^ k ∧
      ((q.m_Tail + usizeMod - q.m_Head) % usizeMod) % 2 ^ k + returned h = accepted h ∧
      ((q.m_Tail + usizeMod - q.m_Head) % usizeMod) % 2 ^ k ≤ 2 ^ k - 1 ∧
      ∀ e : TEvent, ∃ q' log, q.Push e = .ok (q', log) ∧
        (log ≠ [] ↔ ((q.m_Tail + usizeMod - q.m_Head) % usizeMod) % 2 ^ k = 2 ^ k - 1)) ∧
    (∃ q h, Core.EventQueue.run cfuel Core.EventQueue.EventQueue cops = .ok (q, h) ∧
      h.map Obs.op = cops ∧
      q.m_Head < Core.s_QueueSize ∧ q.m_Tail < Core.s_QueueSize ∧
      q.m_Buffer.length = Core.s_QueueSize ∧
      ((q.m_Tail + usizeMod - q.m_Head) % usizeMod) % Core.s_QueueSize + returned h =
        accepted h ∧
      ((q.m_Tail + usizeMod - q.m_Head) % usizeMod) % Core.s_QueueSize ≤ Core.s_QueueSize - 1 ∧
      ∀ e : Core.Event, ∃ q' log, q.Push e = .ok (q', log) ∧
        (log ≠ [] ↔ ((q.m_Tail + usizeMod - q.m_Head) % usizeMod) % Core.s_QueueSize =
          Core.s_QueueSize - 1)) := by
  refine ⟨cursor_generic k hk fuel hfuel ops, ?_⟩
  obtain ⟨g, h, hr, hops, h1, h2, h3, h4, h5, h6⟩ :=
    cursor_generic 8 (by decide) cfuel hcfuel cops
  rw [← core_fresh] at hr
  obtain ⟨q, hq, hg⟩ := core_run_ok hr
  subst hg
  refine ⟨q, h, hq, hops, h1, h2, h3, h4, h5, ?_⟩
  intro e
  obtain ⟨g', log, hp, hiff⟩ := h6 e
  obtain ⟨q', hq', -⟩ := core_push_ok hp
  exact ⟨q', log, hq', hiff⟩

/-- Witness of C4: capacity 4, the cursors wrapped once. -/
theorem cursor_invariant_witness :
    2 < 64 ∧ 2 ^ 2 - 1 ≤ 3 ∧ Core.s_QueueSize - 1 ≤ 255 ∧
    ∃ q h, run 3 (EventQueue (2 ^ 2) : Generic.EventQueue Nat)
        [.Push 1, .Push 2, .Push 3, .Poll, .Push 4, .Push 5] = .ok (q, h) ∧
      h.map Obs.op = [.Push 1, .Push 2, .Push 3, .Poll, .Push 4, .Push 5] ∧
      q.m_Head < 2 ^ 2 ∧ q.m_Tail < 2 ^ 2 ∧ q.m_Buffer.length = 2 ^ 2 ∧
      ((q.m_Tail + usizeMod - q.m_Head) % usizeMod) % 2 ^ 2 + returned h = accepted h ∧
      ((q.m_Tail + usizeMod - q.m_Head) % usizeMod) % 2 ^ 2 ≤ 2 ^ 2 - 1 ∧
      ∀ e : Nat, ∃ q' log, q.Push e = .ok (q', log) ∧
        (log ≠ [] ↔ ((q.m_Tail + usizeMod - q.m_Head) % usizeMod) % 2 ^ 2 = 2 ^ 2 - 1) :=
  ⟨by decide, by decide, by decide,
    (cursor_invariant 2 (by decide) 3 (by decide)
      [.Push 1, .Push 2, .Push 3, .Poll, .Push 4, .Push 5] 255 (by decide) []).1⟩

theorem no_dup_generic [Inhabited TEvent] (k : Nat) (hk : k < 64) (fuel : Nat)
    (hfuel : 2 ^ k - 1 ≤ fuel) (ops : List (Op TEvent)) (fuel2 : Nat) :
    ∃ q h polled q1, run fuel (EventQueue (2 ^ k)) ops = .ok (q, h) ∧
      q.Poll fuel = .ok (polled, q1) ∧ q1.Poll fuel2 = .ok ([], q1) := by
  obtain ⟨q, hr, hring, _⟩ := run_ring fuel hfuel ops _ _ (@ring_init TEvent _ k hk)
  obtain ⟨hp, hring1⟩ := ring_poll hring fuel
  rw [if_pos (by have := hring.len; omega)] at hp
  obtain ⟨hp2, _⟩ := ring_poll hring1 fuel2
  rw [if_pos (by simp)] at hp2
  exact ⟨q, _, _, _, hr, hp, hp2⟩

/-- C5 (no duplication).  In every state reached from a fresh queue of
capacity `2 ^ k`, a `Poll` returns, and a second `Poll` right after it
returns the empty list (whatever its loop bound, even 0) and leaves the whole
queue, cursors and buffer, as the first `Poll` left it.  The same holds for
the fixed queue of Events.hpp. -/
theorem no_duplication [Inhabited TEvent] (k : Nat) (hk : k < 64) (fuel : Nat)
    (hfuel : 2 ^ k - 1 ≤ fuel) (ops : List (Op TEvent)) (fuel2 : Nat)
    (cfuel : Nat) (hcfuel : Core.s_QueueSize - 1 ≤ cfuel) (cops : List (Op Core.Event)) :
    (∃ q h polled q1, run fuel (EventQueue (2 ^ k)) ops = .ok (q, h) ∧
      q.Poll fuel = .ok (polled, q1) ∧ q1.Poll fuel2 = .ok ([], q1)) ∧
    (∃ q h polled q1, Core.EventQueue.run cfuel Core.EventQueue.EventQueue cops = .ok (q, h) ∧
      q.Poll cfuel = .ok (polled, q1) ∧ q1.Poll fuel2 = .ok ([], q1)) := by
  refine ⟨no_dup_generic k hk fuel hfuel ops fuel2, ?_⟩
  obtain ⟨g, h, polled, g1, hr, hp1, hp2⟩ :=
    no_dup_generic 8 (by decide) cfuel hcfuel cops fuel2
  rw [← core_fresh] at hr
  obtain ⟨q, hq, hg⟩ := core_run_ok hr
  subst hg
  obtain ⟨q1, hq1, hg1⟩ := core_poll_ok hp1
  subst hg1
  obtain ⟨q2, hq2, hg2⟩ := core_poll_ok hp2
  rw [core_toGeneric_inj hg2] at hq2
  exact ⟨q, h, polled, q1, hq, hq1, hq2⟩

/-- Witness of C5: capacity 4, two events pending before the first `Poll`. -/
theorem no_duplication_witness :
    2 < 64 ∧ 2 ^ 2 - 1 ≤ 3 ∧ Core.s_QueueSize - 1 ≤ 255 ∧
    ∃ q h polled q1, run 3 (EventQueue (2 ^ 2) : Generic.EventQueue Nat)
        [.Push 1, .Push 2] = .ok (q, h) ∧
      q.Poll 3 = .ok (polled, q1) ∧ q1.Poll 0 = .ok ([], q1) :=
  ⟨by decide, by decide, by decide,
    (no_duplication 2 (by decide) 3 (by decide) [.Push 1, .Push 2] 0 255 (by decide) []).1⟩

/-- C6 (push on a full queue is a no-op).  In any state of a queue of
capacity `N = 2 ^ k` with `(tail + 1) mod N = head`, `Push e` returns, logs
`Event queue full` and leaves the queue (cursors and every slot) as it was;
hence every later sequence of calls behaves as if `e` had never been pushed.
The same holds for the fixed queue of Events.hpp with `N = 256`. -/
theorem push_full_noop (q : Generic.EventQueue TEvent) (k : Nat) (hk : k < 64)
    (hN : q.m_QueueSize = 2 ^ k) (hfull : (q.m_Tail + 1) % 2 ^ k = q.m_Head) (e : TEvent)
    (cq : Core.EventQueue) (hcfull : (cq.m_Tail + 1) % Core.s_QueueSize = cq.m_Head)
    (ce : Core.Event) :
    (q.Push e = .ok (q, ["Event queue full"]) ∧
      ∀ (fuel : Nat) (ops : List (Op TEvent)),
        run fuel q (Op.Push e :: ops) =
          (run fuel q ops).map (fun r => (r.1, Obs.Push e ["Event queue full"] :: r.2))) ∧
    (cq.Push ce = .ok (cq, ["Event queue full"]) ∧
      ∀ (fuel : Nat) (ops : List (Op Core.Event)),
        Core.EventQueue.run fuel cq (Op.Push ce :: ops) =
          (Core.EventQueue.run fuel cq ops).map
            (fun r => (r.1, Obs.Push ce ["Event queue full"] :: r.2))) := by
  have hp : q.Push e = .ok (q, ["Event queue full"]) := by
    unfold Push
    simp only [hN, advance_pow2_any hk, hfull, if_true]
  have hcp : cq.Push ce = .ok (cq, ["Event queue full"]) := by
    unfold Core.EventQueue.Push
    simp only [core_advance, core_size, advance_pow2_any (show 8 < 64 by decide)]
    rw [core_size] at hcfull
    simp only [hcfull, if_true]
  refine ⟨⟨hp, ?_⟩, hcp, ?_⟩
  · intro fuel ops
    simp only [run, step, hp]
    cases run fuel q ops <;> rfl
  · intro fuel ops
    simp only [Core.EventQueue.run, Core.EventQueue.step, hcp]
    cases Core.EventQueue.run fuel cq ops <;> rfl

/-- Witness of C6: a full generic queue of capacity 4 and the fixed queue
with `m_Head = 1`, `m_Tail = 0`. -/
theorem push_full_noop_witness :
    2 < 64 ∧
    (⟨0, 3, 4, [1, 2, 3, 0]⟩ : Generic.EventQueue Nat).m_QueueSize = 2 ^ 2 ∧
    ((⟨0, 3, 4, [1, 2, 3, 0]⟩ : Generic.EventQueue Nat).m_Tail + 1) % 2 ^ 2 =
      (⟨0, 3, 4, [1, 2, 3, 0]⟩ : Generic.EventQueue Nat).m_Head ∧
    (({ Core.EventQueue.EventQueue with m_Head := 1 } : Core.EventQueue).m_Tail + 1) %
        Core.s_QueueSize =
      ({ Core.EventQueue.EventQueue with m_Head := 1 } : Core.EventQueue).m_Head ∧
    (⟨0, 3, 4, [1, 2, 3, 0]⟩ : Generic.EventQueue Nat).Push 9 =
      .ok (⟨0, 3, 4, [1, 2, 3, 0]⟩, ["Event queue full"]) :=
  ⟨by decide, by decide, by decide, by decide,
    (push_full_noop (⟨0, 3, 4, [1, 2, 3, 0]⟩ : Generic.EventQueue Nat) 2 (by decide)
      (by decide) (by decide) 9 { Core.EventQueue.EventQueue with m_Head := 1 }
      (by decide) default).1.1⟩

/-! ## Termination of `Poll`, frame conditions, equivalence of the two queues -/

theorem ring_pending {k : Nat} (hk : k < 64) {q : Generic.EventQueue TEvent} {l : List TEvent}
    (h : Ring (2 ^ k) q l) : pending q (2 ^ k) = l.length :=
  ring_count hk h

theorem core_poll_error {q : Core.EventQueue} {fuel : Nat} {f : Fault}
    (hp : (Core.EventQueue.toGeneric q).Poll fuel = .error f) : q.Poll fuel = .error f := by
  rw [core_poll] at hp
  cases hc : q.Poll fuel with
  | error f' => rw [hc] at hp; simpa [Except.map] using hp
  | ok r => rw [hc] at hp; cases hp

theorem poll_bounded_generic [Inhabited TEvent] (k : Nat) (hk : k < 64) (fuel : Nat)
    (hfuel : 2 ^ k - 1 ≤ fuel) (ops : List (Op TEvent)) :
    ∃ q h polled q1, run fuel (EventQueue (2 ^ k)) ops = .ok (q, h) ∧
      pending q (2 ^ k) ≤ 2 ^ k - 1 ∧ polled.length = pending q (2 ^ k) ∧
      (∀ f, pending q (2 ^ k) ≤ f → q.Poll f = .ok (polled, q1)) ∧
      (∀ f, f < pending q (2 ^ k) → q.Poll f = .error Fault.outOfFuel) := by
  obtain ⟨q, hr, hring, _⟩ := run_ring fuel hfuel ops _ _ (@ring_init TEvent _ k hk)
  have hp := ring_pending hk hring
  have hl := hring.len
  refine ⟨q, _, _, { q with m_Head := q.m_Tail }, hr, by omega, hp.symm, ?_, ?_⟩
  · intro f hf
    rw [(ring_poll hring f).1, if_pos (by omega)]
  · intro f hf
    rw [(ring_poll hring f).1, if_neg (by omega)]

/-- C16 (`Poll` is total and bounded).  In every state reached from a fresh
queue of capacity `N = 2 ^ k`, with `c = (tail - head) mod N`: `c ≤ N - 1`;
`Poll` returns whenever its loop body may run `c` times or more, always with
the same list, of length `c`, and the same queue; and it does not return when
the body may run fewer than `c` times.  So the loop runs its body exactly `c`
times.  The same holds for the fixed queue of Events.hpp with `N = 256`. -/
theorem poll_total_bounded [Inhabited TEvent] (k : Nat) (hk : k < 64) (fuel : Nat)
    (hfuel : 2 ^ k - 1 ≤ fuel) (ops : List (Op TEvent))
    (cfuel : Nat) (hcfuel : Core.s_QueueSize - 1 ≤ cfuel) (cops : List (Op Core.Event)) :
    (∃ q h polled q1, run fuel (EventQueue (2 ^ k)) ops = .ok (q, h) ∧
      pending q (2 ^ k) ≤ 2 ^ k - 1 ∧ polled.length = pending q (2 ^ k) ∧
      (∀ f, pending q (2 ^ k) ≤ f → q.Poll f = .ok (polled, q1)) ∧
      (∀ f, f < pending q (2 ^ k) → q.Poll f = .error Fault.outOfFuel)) ∧
    (∃ q h polled q1,
      Core.EventQueue.run cfuel Core.EventQueue.EventQueue cops = .ok (q, h) ∧
      pending (Core.EventQueue.toGeneric q) Core.s_QueueSize ≤ Core.s_QueueSize - 1 ∧
      polled.length = pending (Core.EventQueue.toGeneric q) Core.s_QueueSize ∧
      (∀ f, pending (Core.EventQueue.toGeneric q) Core.s_QueueSize ≤ f →
        q.Poll f = .ok (polled, q1)) ∧
      (∀ f, f < pending (Core.EventQueue.toGeneric q) Core.s_QueueSize →
        q.Poll f = .error Fault.outOfFuel)) := by
  refine ⟨poll_bounded_generic k hk fuel hfuel ops, ?_⟩
  obtain ⟨g, h, polled, g1, hr, hle, hlen, hok, herr⟩ :=
    poll_bounded_generic 8 (by decide) cfuel hcfuel cops
  rw [← core_fresh] at hr
  obtain ⟨q, hq, hg⟩ := core_run_ok hr
  subst hg
  obtain ⟨q1, -, hg1⟩ := core_poll_ok (hok _ (Nat.le_refl _))
  subst hg1
  refine ⟨q, h, polled, q1, hq, hle, hlen, ?_, ?_⟩
  · intro f hf
    obtain ⟨q2, hq2, hg2⟩ := core_poll_ok (hok f hf)
    rw [core_toGeneric_inj hg2] at hq2
    exact hq2
  · intro f hf
    exact core_poll_error (herr f hf)

/-- Witness of C16: capacity 4, two records pending with the head cursor at
3 and the tail cursor wrapped to 1. -/
theorem poll_total_bounded_witness :
    2 < 64 ∧ 2 ^ 2 - 1 ≤ 3 ∧ Core.s_QueueSize - 1 ≤ 255 ∧
    ∃ q h polled q1, run 3 (EventQueue (2 ^ 2) : Generic.EventQueue Nat)
        [.Push 1, .Push 2, .Push 3, .Poll, .Push 4, .Push 5] = .ok (q, h) ∧
      pending q (2 ^ 2) ≤ 2 ^ 2 - 1 ∧ polled.length = pending q (2 ^ 2) ∧
      (∀ f, pending q (2 ^ 2) ≤ f → q.Poll f = .ok (polled, q1)) ∧
      (∀ f, f < pending q (2 ^ 2) → q.Poll f = .error Fault.outOfFuel) :=
  ⟨by decide, by decide, by decide,
    (poll_total_bounded 2 (by decide) 3 (by decide)
      [.Push 1, .Push 2, .Push 3, .Poll, .Push 4, .Push 5] 255 (by decide) []).1⟩

theorem push_frame {q q' : Generic.EventQueue TEvent} {e : TEvent} {log : List String}
    (h : q.Push e = .ok (q', log)) :
    q'.m_Head = q.m_Head ∧ q'.m_QueueSize = q.m_QueueSize ∧
    q'.m_Buffer.length = q.m_Buffer.length ∧
    (∀ i, i ≠ q.m_Tail → q'.m_Buffer[i]? = q.m_Buffer[i]?) ∧
    (log ≠ [] → q' = q) := by
  unfold Push at h
  simp only at h
  split at h
  · simp only [Except.ok.injEq, Prod.mk.injEq] at h
    obtain ⟨rfl, -⟩ := h
    exact ⟨rfl, rfl, rfl, fun _ _ => rfl, fun _ => rfl⟩
  · split at h
    · simp only [Except.ok.injEq, Prod.mk.injEq] at h
      obtain ⟨rfl, rfl⟩ := h
      refine ⟨rfl, rfl, by simp, ?_, fun hne => absurd rfl hne⟩
      intro i hi
      simp only [List.getElem?_set_ne (Ne.symm hi)]
    · cases h

theorem pollLoop_exit (q : Generic.EventQueue TEvent) (tail : Nat) :
    ∀ (fuel : Nat) (acc : List TEvent) (head : Nat) (polled : List TEvent) (head' : Nat),
      pollLoop q fuel acc head tail = .ok (polled, head') → head' = tail := by
  intro fuel
  induction fuel with
  | zero =>
    intro acc head polled head' h
    unfold pollLoop at h
    split at h
    · simp only [Except.ok.injEq, Prod.mk.injEq] at h
      omega
    · cases h
  | succ fuel ih =>
    intro acc head polled head' h
    unfold pollLoop at h
    split at h
    · simp only [Except.ok.injEq, Prod.mk.injEq] at h
      omega
    · simp only at h
      split at h
      · cases h
      · exact ih _ _ _ _ h

theorem poll_frame {q q' : Generic.EventQueue TEvent} {fuel : Nat} {polled : List TEvent}
    (h : q.Poll fuel = .ok (polled, q')) :
    q'.m_Tail = q.m_Tail ∧ q'.m_Head = q.m_Tail ∧ q'.m_Buffer = q.m_Buffer ∧
    q'.m_QueueSize = q.m_QueueSize := by
  unfold Poll at h
  split at h
  · rename_i p hd hloop
    simp only [Except.ok.injEq, Prod.mk.injEq] at h
    obtain ⟨-, rfl⟩ := h
    exact ⟨rfl, pollLoop_exit q _ _ _ _ _ _ hloop, rfl, rfl⟩
  · cases h

theorem flood_cursors {R : Nat} (fuel : Nat) (hfuel : R - 1 ≤ fuel) (es : List TEvent) :
    ∀ (q : Generic.EventQueue TEvent) (l : List TEvent), Ring R q l →
      ∃ q' h, run fuel q (es.map Op.Push ++ [Op.Poll]) = .ok (q', h) ∧
        q'.m_Head = (q.m_Head + l.length + (es.take (R - 1 - l.length)).length) % R ∧
        q'.m_Tail = q'.m_Head ∧
        accepted h = (es.take (R - 1 - l.length)).length := by
  induction es with
  | nil =>
    intro q l hring
    have hp := (ring_poll hring fuel).1
    rw [if_pos (by have := hring.len; omega)] at hp
    refine ⟨{ q with m_Head := q.m_Tail }, [.Poll l], ?_, ?_, rfl, ?_⟩
    · simp [run, step, hp]
    · simp [hring.tail]
    · simp [accepted]
  | cons e es ih =>
    intro q l hring
    by_cases hfull : l.length + 1 = R
    · have h0 : R - 1 - l.length = 0 := by omega
      obtain ⟨q', h, hr, hh, ht, ha⟩ := ih q l hring
      rw [h0] at hh ha ⊢
      refine ⟨q', .Push e ["Event queue full"] :: h, ?_, by simpa using hh, ht, ?_⟩
      · show run fuel q (Op.Push e :: (es.map Op.Push ++ [Op.Poll])) = _
        simp only [run, step, ring_push_full hring hfull e, hr]
      · simpa [accepted] using ha
    · have hfree : l.length + 1 < R := by have := hring.len; omega
      obtain ⟨n, hn⟩ : ∃ n, R - 1 - l.length = n + 1 := ⟨R - 1 - l.length - 1, by omega⟩
      obtain ⟨hp, hring1⟩ := ring_push_free hring hfree e
      obtain ⟨q', h, hr, hh, ht, ha⟩ := ih _ _ hring1
      have hn' : R - 1 - (l ++ [e]).length = n := by simp; omega
      rw [hn'] at hh ha
      rw [hn]
      refine ⟨q', .Push e [] :: h, ?_, ?_, ht, ?_⟩
      · show run fuel q (Op.Push e :: (es.map Op.Push ++ [Op.Poll])) = _
        simp only [run, step, hp, hr]
      · rw [hh]
        simp only [List.length_append, List.length_singleton, List.take_succ_cons,
          List.length_cons, List.length_nil]
        congr 1
        omega
      · simp only [accepted, if_true, ha, List.take_succ_cons, List.length_cons]
        omega

theorem cursors_generic [Inhabited TEvent] (k : Nat) (hk : k < 64) (fuel : Nat)
    (hfuel : 2 ^ k - 1 ≤ fuel) (es : List TEvent) :
    ∃ q h, run fuel (EventQueue (2 ^ k)) (es.map Op.Push ++ [Op.Poll]) = .ok (q, h) ∧
      accepted h = min es.length (2 ^ k - 1) ∧
      q.m_Head = accepted h % 2 ^ k ∧ q.m_Tail = accepted h % 2 ^ k := by
  obtain ⟨q, h, hr, hh, ht, ha⟩ :=
    flood_cursors fuel hfuel es _ _ (@ring_init TEvent _ k hk)
  have hlen : (es.take (2 ^ k - 1)).length = min es.length (2 ^ k - 1) := by
    rw [List.length_take, Nat.min_comm]
  simp only [List.length_nil, Nat.sub_zero, Nat.add_zero] at hh ha
  rw [hlen] at ha
  have h0 : (EventQueue (2 ^ k) : Generic.EventQueue TEvent).m_Head = 0 := rfl
  rw [h0, hlen, Nat.zero_add] at hh
  exact ⟨q, h, hr, ha, by rw [hh, ha], by rw [ht, hh, ha]⟩

/-- C17 (single-writer cursors).  In any state, a `Push` that returns leaves
`m_Head` (and the capacity and the length of the buffer) as it was and
changes no slot other than the one at the old tail index, and nothing at all
when it logs a drop; a `Poll` that returns leaves `m_Tail` and the buffer as
they were and sets `m_Head` to `m_Tail`.  So after any pushes onto a fresh
queue of capacity `N = 2 ^ k`, `a` of them accepted, and one `Poll`, both
cursors equal `a mod N`.  The same holds for the fixed queue of Events.hpp
with `N = 256`. -/
theorem single_writer_cursors [Inhabited TEvent] (k : Nat) (hk : k < 64) (fuel : Nat)
    (hfuel : 2 ^ k - 1 ≤ fuel) (es : List TEvent)
    (cfuel : Nat) (hcfuel : Core.s_QueueSize - 1 ≤ cfuel) (ces : List Core.Event) :
    (∀ (q q' : Generic.EventQueue TEvent) (e : TEvent) (log : List String),
      q.Push e = .ok (q', log) →
        q'.m_Head = q.m_Head ∧ q'.m_QueueSize = q.m_QueueSize ∧
        q'.m_Buffer.length = q.m_Buffer.length ∧
        (∀ i, i ≠ q.m_Tail → q'.m_Buffer[i]? = q.m_Buffer[i]?) ∧
        (log ≠ [] → q' = q)) ∧
    (∀ (q q' : Generic.EventQueue TEvent) (f : Nat) (polled : List TEvent),
      q.Poll f = .ok (polled, q') →
        q'.m_Tail = q.m_Tail ∧ q'.m_Head = q.m_Tail ∧ q'.m_Buffer = q.m_Buffer ∧
        q'.m_QueueSize = q.m_QueueSize) ∧
    (∃ q h, run fuel (EventQueue (2 ^ k)) (es.map Op.Push ++ [Op.Poll]) = .ok (q, h) ∧
      accepted h = min es.length (2 ^ k - 1) ∧
      q.m_Head = accepted h % 2 ^ k ∧ q.m_Tail = accepted h % 2 ^ k) ∧
    (∀ (q q' : Core.EventQueue) (e : Core.Event) (log : List String),
      q.Push e = .ok (q', log) →
        q'.m_Head = q.m_Head ∧ q'.m_Buffer.length = q.m_Buffer.length ∧
        (∀ i, i ≠ q.m_Tail → q'.m_Buffer[i]? = q.m_Buffer[i]?) ∧
        (log ≠ [] → q' = q)) ∧
    (∀ (q q' : Core.EventQueue) (f : Nat) (polled : List Core.Event),
      q.Poll f = .ok (polled, q') →
        q'.m_Tail = q.m_Tail ∧ q'.m_Head = q.m_Tail ∧ q'.m_Buffer = q.m_Buffer) ∧
    (∃ q h, Core.EventQueue.run cfuel Core.EventQueue.EventQueue
        (ces.map Op.Push ++ [Op.Poll]) = .ok (q, h) ∧
      accepted h = min ces.length (Core.s_QueueSize - 1) ∧
      q.m_Head = accepted h % Core.s_QueueSize ∧ q.m_Tail = accepted h % Core.s_QueueSize) := by
  refine ⟨fun q q' e log h => push_frame h, fun q q' f polled h => poll_frame h,
    cursors_generic k hk fuel hfuel es, ?_, ?_, ?_⟩
  · intro q q' e log h
    have hg : (Core.EventQueue.toGeneric q).Push e = .ok (Core.EventQueue.toGeneric q', log) := by
      rw [core_push, h]; rfl
    obtain ⟨h1, -, h3, h4, h5⟩ := push_frame hg
    exact ⟨h1, h3, h4, fun hne => core_toGeneric_inj (h5 hne)⟩
  · intro q q' f polled h
    have hg : (Core.EventQueue.toGeneric q).Poll f =
        .ok (polled, Core.EventQueue.toGeneric q') := by
      rw [core_poll, h]; rfl
    obtain ⟨h1, h2, h3, -⟩ := poll_frame hg
    exact ⟨h1, h2, h3⟩
  · obtain ⟨g, h, hr, ha, hh, ht⟩ := cursors_generic 8 (by decide) cfuel hcfuel ces
    rw [← core_fresh] at hr
    obtain ⟨q, hq, hg⟩ := core_run_ok hr
    subst hg
    exact ⟨q, h, hq, ha, hh, ht⟩

/-- Witness of C17: capacity 4 and two pushes; both cursors end at 2. -/
theorem single_writer_cursors_witness :
    2 < 64 ∧ 2 ^ 2 - 1 ≤ 3 ∧ Core.s_QueueSize - 1 ≤ 255 ∧
    ∃ q h, run 3 (EventQueue (2 ^ 2) : Generic.EventQueue Nat)
        ([10, 20].map Op.Push ++ [Op.Poll]) = .ok (q, h) ∧
      accepted h = 2 ∧ q.m_Head = 2 ∧ q.m_Tail = 2 :=
  have w := (single_writer_cursors 2 (by decide) 3 (by decide) [10, 20]
    255 (by decide) []).2.2.1
  ⟨by decide, by decide, by decide,
    w.elim (fun q hq => hq.elim (fun h hh =>
      ⟨q, h, hh.1, hh.2.1, by rw [hh.2.2.1, hh.2.1]; decide, by rw [hh.2.2.2, hh.2.1]; decide⟩))⟩

/-! ## A capacity that is not a power of two -/

/-- With `z` the position of the lowest zero bit of `m`, masking a value up
to `2 ^ z` with `m` reduces it modulo `2 ^ z`. -/
theorem and_lowest_zero {m z x : Nat} (hz : m.testBit z = false)
    (hlow : ∀ i, i < z → m.testBit i = true) (hx : x ≤ 2 ^ z) :
    x &&& m = x % 2 ^ z := by
  apply Nat.eq_of_testBit_eq
  intro j
  rw [Nat.testBit_and, Nat.testBit_mod_two_pow]
  rcases Nat.lt_trichotomy j z with h | h | h
  · simp [hlow j h, h]
  · subst h; simp [hz]
  · have hxj : x < 2 ^ j :=
      Nat.lt_of_le_of_lt hx (Nat.pow_lt_pow_right (by decide) h)
    have hnot : ¬ j < z := by omega
    simp [Nat.testBit_lt_two_pow hxj, hnot]

/-- The low `z` bits of `m` are all set: `m mod 2 ^ z = 2 ^ z - 1`. -/
theorem mod_of_low_ones {m z : Nat} (hlow : ∀ i, i < z → m.testBit i = true) :
    m % 2 ^ z = 2 ^ z - 1 := by
  apply Nat.eq_of_testBit_eq
  intro j
  rw [Nat.testBit_mod_two_pow, Nat.testBit_two_pow_sub_one]
  by_cases h : j < z
  · simp [h, hlow j h]
  · simp [h]

theorem low_ones_le {m z : Nat} (hlow : ∀ i, i < z → m.testBit i = true) :
    2 ^ z - 1 ≤ m := by
  have h := mod_of_low_ones hlow
  have := Nat.mod_le m (2 ^ z)
  omega

theorem lowest_zero_lt {N z : Nat} (hN1 : 1 ≤ N) (hN : N < usizeMod)
    (hlow : ∀ i, i < z → (N - 1).testBit i = true) : z < 64 := by
  rcases Nat.lt_or_ge z 64 with h | h
  · exact h
  · exfalso
    have h64 := low_ones_le (fun i (hi : i < 64) => hlow i (by omega))
    unfold usizeMod at hN
    omega

theorem advance_lowest_zero {N z i : Nat} (hN1 : 1 ≤ N) (hN : N < usizeMod)
    (hz : (N - 1).testBit z = false) (hlow : ∀ i, i < z → (N - 1).testBit i = true)
    (hi : i < 2 ^ z) : advance N i = (i + 1) % 2 ^ z := by
  have hz64 := lowest_zero_lt hN1 hN hlow
  have hlt : 2 ^ z < 2 ^ 64 := Nat.pow_lt_pow_right (by decide) hz64
  unfold advance
  unfold usizeMod at hN ⊢
  have h1 : (i + 1) % 2 ^ 64 = i + 1 := Nat.mod_eq_of_lt (by omega)
  have h2 : (N + 2 ^ 64 - 1) % 2 ^ 64 = N - 1 := by
    have : N + 2 ^ 64 - 1 = (N - 1) + 2 ^ 64 := by omega
    rw [this, Nat.add_mod_right, Nat.mod_eq_of_lt (by omega)]
  rw [h1, h2]
  exact and_lowest_zero hz hlow (by omega)

theorem ring_init_lowest_zero [Inhabited TEvent] {N z : Nat} (hN1 : 1 ≤ N) (hN : N < usizeMod)
    (hz : (N - 1).testBit z = false) (hlow : ∀ i, i < z → (N - 1).testBit i = true) :
    Ring (2 ^ z) (EventQueue N : Generic.EventQueue TEvent) [] where
  pos := Nat.pow_pos (by decide)
  adv := fun i hi => advance_lowest_zero hN1 hN hz hlow hi
  buf := by
    have := low_ones_le hlow
    have hpos : 0 < 2 ^ z := Nat.pow_pos (by decide)
    simp only [EventQueue, List.length_replicate]
    omega
  head := by simp [EventQueue]
  len := by simp
  tail := by simp [EventQueue]
  slots := by simp

theorem lowest_zero_lt_capacity {N z : Nat} (hN1 : 1 ≤ N) (hnp : ¬ ∃ k : Nat, N = 2 ^ k)
    (hlow : ∀ i, i < z → (N - 1).testBit i = true) : 2 ^ z - 1 < N - 1 := by
  have h := low_ones_le hlow
  rcases Nat.lt_or_ge (2 ^ z - 1) (N - 1) with h1 | h1
  · exact h1
  · exfalso
    have hpos : 0 < 2 ^ z := Nat.pow_pos (by decide)
    exact hnp ⟨z, by omega⟩

theorem absRun_refused (ops : List (Op TEvent)) :
    absRun 1 ([] : List TEvent) ops = ([], ops.map refused) := by
  induction ops with
  | nil => rfl
  | cons op ops ih =>
    cases op with
    | Push e => simp [absRun, absStep, refused, ih]
    | Poll => simp [absRun, absStep, refused, ih]

theorem not_pow2_three : ¬ ∃ k : Nat, 3 = 2 ^ k := by
  rintro ⟨k, hk⟩
  rcases Nat.lt_or_ge k 2 with h | h
  · interval_cases k <;> omega
  · have : 2 ^ 2 ≤ 2 ^ k := Nat.pow_le_pow_right (by decide) h
    omega

theorem not_pow2_six : ¬ ∃ k : Nat, 6 = 2 ^ k := by
  rintro ⟨k, hk⟩
  rcases Nat.lt_or_ge k 3 with h | h
  · interval_cases k <;> omega
  · have : 2 ^ 3 ≤ 2 ^ k := Nat.pow_le_pow_right (by decide) h
    omega

/-- C21 (a capacity that is not a power of two degrades the generic queue).
Let `N ≥ 2` be a `usize` value that is not a power of two and `z` the
position of the lowest zero bit of `N - 1`.  Then `2 ^ z - 1 < N - 1`, and
the queue constructed with `queueSize = N` is not rejected but behaves as a
queue of capacity `2 ^ z`: pushing any events onto the fresh queue, the first
`2 ^ z - 1` are accepted and every later one is dropped, and the following
`Poll` returns those first `2 ^ z - 1`; more generally every sequence of
calls returns with the observations of the bounded list with room for
`2 ^ z - 1` events.  With `queueSize = 3` every `Push` is dropped and every
`Poll` returns the empty vector; with `queueSize = 6` one event is
accepted. -/
theorem non_power_of_two_degrades [Inhabited TEvent] (N z : Nat) (hN2 : 2 ≤ N)
    (hN : N < usizeMod) (hnp : ¬ ∃ k : Nat, N = 2 ^ k)
    (hz : (N - 1).testBit z = false) (hlow : ∀ i, i < z → (N - 1).testBit i = true)
    (fuel : Nat) (hfuel : 2 ^ z - 1 ≤ fuel) (es : List TEvent) (ops : List (Op TEvent)) :
    2 ^ z - 1 < N - 1 ∧
    (∃ q h, run fuel (EventQueue N) (es.map Op.Push ++ [Op.Poll]) = .ok (q, h) ∧
      h = (es.take (2 ^ z - 1)).map (fun e => Obs.Push e []) ++
          (es.drop (2 ^ z - 1)).map (fun e => Obs.Push e ["Event queue full"]) ++
          [Obs.Poll (es.take (2 ^ z - 1))] ∧
      accepted h = min es.length (2 ^ z - 1)) ∧
    (∃ q, run fuel (EventQueue N) ops = .ok (q, (absRun (2 ^ z) [] ops).2)) ∧
    (∀ (f : Nat) (ops3 : List (Op TEvent)),
      ∃ q, run f (EventQueue 3) ops3 = .ok (q, ops3.map refused)) ∧
    (∀ (f : Nat) (es6 : List TEvent), 1 ≤ f →
      ∃ q, run f (EventQueue 6) (es6.map Op.Push ++ [Op.Poll]) =
        .ok (q, (es6.take 1).map (fun e => Obs.Push e []) ++
                (es6.drop 1).map (fun e => Obs.Push e ["Event queue full"]) ++
                [Obs.Poll (es6.take 1)])) := by
  have hring := @ring_init_lowest_zero TEvent _ N z (by omega) hN hz hlow
  refine ⟨lowest_zero_lt_capacity (by omega) hnp hlow, ?_, ?_, ?_, ?_⟩
  · obtain ⟨q, hr, -, -⟩ := run_ring fuel hfuel (es.map Op.Push ++ [Op.Poll]) _ _ hring
    rw [absRun_flood (2 ^ z) es [] (by simp)] at hr
    simp only [List.length_nil, Nat.sub_zero, List.nil_append] at hr
    obtain ⟨q', h', hr', -, -, ha⟩ := flood_cursors fuel hfuel es _ _ hring
    rw [hr] at hr'
    simp only [Except.ok.injEq, Prod.mk.injEq] at hr'
    obtain ⟨-, rfl⟩ := hr'
    refine ⟨q, _, hr, rfl, ?_⟩
    rw [ha]
    simp only [List.length_nil, Nat.sub_zero, List.length_take]
    exact Nat.min_comm _ _
  · obtain ⟨q, hr, -, -⟩ := run_ring fuel hfuel ops _ _ hring
    exact ⟨q, hr⟩
  · intro f ops3
    have h3 := @ring_init_lowest_zero TEvent _ 3 0 (by decide) (by decide) (by decide)
      (by intro i hi; omega)
    obtain ⟨q, hr, -, -⟩ := run_ring f (Nat.zero_le f) ops3 _ _ h3
    rw [show (2 : Nat) ^ 0 = 1 from rfl, absRun_refused] at hr
    exact ⟨q, hr⟩
  · intro f es6 hf
    have h6 := @ring_init_lowest_zero TEvent _ 6 1 (by decide) (by decide) (by decide)
      (by intro i hi; interval_cases i; decide)
    obtain ⟨q, hr, -, -⟩ := run_ring f (by simpa using hf) (es6.map Op.Push ++ [Op.Poll]) _ _ h6
    rw [absRun_flood (2 ^ 1) es6 [] (by simp)] at hr
    exact ⟨q, by simpa using hr⟩

/-- Witness of C21: `queueSize = 6`, so `N - 1 = 5 = 0b101` and `z = 1`; of
three pushes the first is accepted. -/
theorem non_power_of_two_degrades_witness :
    2 ≤ 6 ∧ 6 < usizeMod ∧ (¬ ∃ k : Nat, 6 = 2 ^ k) ∧ (6 - 1).testBit 1 = false ∧
    (∀ i, i < 1 → (6 - 1).testBit i = true) ∧ 2 ^ 1 - 1 ≤ 1 ∧
    2 ^ 1 - 1 < 6 - 1 ∧
    ∃ q h, run 1 (EventQueue 6 : Generic.EventQueue Nat)
        ([10, 20, 30].map Op.Push ++ [Op.Poll]) = .ok (q, h) ∧
      h = [.Push 10 [], .Push 20 ["Event queue full"], .Push 30 ["Event queue full"],
           .Poll [10]] ∧
      accepted h = 1 :=
  have w := non_power_of_two_degrades 6 1 (by decide) (by decide) not_pow2_six (by decide)
    (by decide) 1 (by decide) ([10, 20, 30] : List Nat) []
  ⟨by decide, by decide, not_pow2_six, by decide, by decide, by decide, w.1,
    w.2.1.elim (fun q hq => hq.elim (fun h hh =>
      ⟨q, h, hh.1, hh.2.1.trans (by decide), hh.2.2.trans (by decide)⟩))⟩

end Generic.EventQueue

/-! ## The dispatcher -/

namespace Core.EventDispatcher

variable {σ : Type}

theorem store_get_if (ev : Event) : ∃ e, get_if ev.kind ev = some e ∧ ev.kind.store e = ev ∧
    ev.kind.handled e = ev.handled ∧
    ∀ b, ev.kind.store (ev.kind.setHandled e b) = ev.withHandled b := by
  cases ev <;> exact ⟨_, rfl, rfl, rfl, fun _ => rfl⟩

theorem get_if_other (ev : Event) (K : Kind) (h : ev.kind ≠ K) : get_if K ev = none := by
  cases ev <;> cases K <;> first | rfl | exact absurd rfl h

theorem withHandled_handled (ev : Event) (b : Bool) : (ev.withHandled b).handled = b := by
  cases ev <;> rfl

theorem withHandled_kind (ev : Event) (b : Bool) : (ev.withHandled b).kind = ev.kind := by
  cases ev <;> rfl

theorem withHandled_withHandled (ev : Event) (b c : Bool) :
    (ev.withHandled b).withHandled c = ev.withHandled c := by
  cases ev <;> rfl

theorem withHandled_self (ev : Event) : ev.withHandled ev.handled = ev := by
  cases ev <;> rfl

/-- What `Dispatch` computes, in one equation. -/
theorem dispatch_eq (K : Kind) (func : K.T → σ → Bool × σ) (ev : Event) (s : σ) :
    Dispatch K func ev s =
      match get_if K ev with
      | some e => if ev.handled = false
          then (ev.withHandled (func e s).1, (func e s).2) else (ev, s)
      | none => (ev, s) := by
  by_cases hK : ev.kind = K
  · subst hK
    cases ev <;> simp [Dispatch, get_if, Kind.handled, Kind.store, Kind.setHandled,
      Event.handled, Event.withHandled, Event.kind]
  · simp [Dispatch, get_if_other ev K hK]

theorem generic_dispatch_eq (K : Kind) (func : K.T → σ → Bool × σ) (ev : Event) (s : σ) :
    Generic.EventDispatcher.Dispatch K.alternative func ev s = Dispatch K func ev s := by
  unfold Generic.EventDispatcher.Dispatch Dispatch Kind.alternative
  simp only
  cases get_if K ev <;> rfl

theorem dispatch_handled (K : Kind) (func : K.T → σ → Bool × σ) (ev : Event) (s : σ)
    (h : ev.handled = true) : Dispatch K func ev s = (ev, s) := by
  rw [dispatch_eq]
  cases get_if K ev <;> simp [h]

theorem dispatch_other (K : Kind) (func : K.T → σ → Bool × σ) (ev : Event) (s : σ)
    (h : ev.kind ≠ K) : Dispatch K func ev s = (ev, s) := by
  rw [dispatch_eq, get_if_other ev K h]

theorem dispatchAll_handled (calls : List (Call σ)) (ev : Event) (s : σ)
    (h : ev.handled = true) : dispatchAll calls ev s = (ev, s) := by
  induction calls with
  | nil => rfl
  | cons c rest ih => simp only [dispatchAll, dispatch_handled c.K c.func ev s h, ih]

theorem dispatchAll_append (calls1 calls2 : List (Call σ)) :
    ∀ (ev : Event) (s : σ), dispatchAll (calls1 ++ calls2) ev s =
      dispatchAll calls2 (dispatchAll calls1 ev s).1 (dispatchAll calls1 ev s).2 := by
  induction calls1 with
  | nil => intro ev s; rfl
  | cons c rest ih => intro ev s; exact ih _ _

/-- C7 (dispatch on a matching kind).  For a record `ev` whose active
alternative is `K` and any callable: `get_if` yields the struct of the
record.  If `handled` is false the callable is invoked exactly once, on that
struct (the invocation log grows by the one entry `ev`), the flag becomes the
value it returned and the captured state is the one it left.  If `handled` is
true the callable is not invoked and record and state are unchanged.  In both
cases the record keeps its alternative and every member other than `handled`.
The dispatcher of Events/Event.hpp computes the same. -/
theorem dispatch_matching_kind (ev : Event) (K : Kind) (hK : ev.kind = K)
    (func : K.T → σ → Bool × σ) (s : σ) (tag : Nat) (log : List (Nat × Event)) :
    ∃ e, get_if K ev = some e ∧ K.store e = ev ∧
      (ev.handled = false →
        Dispatch K (logged tag K func) ev (s, log) =
          (ev.withHandled (func e s).1, ((func e s).2, log ++ [(tag, ev)])) ∧
        Dispatch K func ev s = (ev.withHandled (func e s).1, (func e s).2) ∧
        (Dispatch K func ev s).1.handled = (func e s).1) ∧
      (ev.handled = true →
        Dispatch K (logged tag K func) ev (s, log) = (ev, (s, log)) ∧
        Dispatch K func ev s = (ev, s)) ∧
      (Dispatch K func ev s).1.withHandled false = ev.withHandled false ∧
      (Dispatch K func ev s).1.kind = K ∧
      Generic.EventDispatcher.Dispatch K.alternative func ev s = Dispatch K func ev s := by
  subst hK
  obtain ⟨e, hg, hst, -, -⟩ := store_get_if ev
  refine ⟨e, hg, hst, ?_, ?_, ?_, ?_, generic_dispatch_eq _ _ _ _⟩
  · intro hf
    refine ⟨?_, ?_, ?_⟩
    · rw [dispatch_eq, hg]; simp [hf, logged, hst]
    · rw [dispatch_eq, hg]; simp [hf]
    · rw [dispatch_eq, hg]; simp [hf, withHandled_handled]
  · intro ht
    exact ⟨dispatch_handled _ _ _ _ ht, dispatch_handled _ _ _ _ ht⟩
  · rw [dispatch_eq, hg]
    by_cases hf : ev.handled = false <;> simp [hf, withHandled_withHandled]
  · rw [dispatch_eq, hg]
    by_cases hf : ev.handled = false <;> simp [hf, withHandled_kind]

/-- Witness of C7: a `KeyPressed` record and a callable that counts its
invocations and reports the event handled. -/
theorem dispatch_matching_kind_witness :
    (Event.KeyPressedEvent { keycode := 256, «repeat» := false }).kind = .KeyPressedEvent ∧
    ∃ e, get_if .KeyPressedEvent (.KeyPressedEvent { keycode := 256, «repeat» := false }) = some e ∧
      Kind.store .KeyPressedEvent e = .KeyPressedEvent { keycode := 256, «repeat» := false } ∧
      ((Event.KeyPressedEvent { keycode := 256, «repeat» := false }).handled = false →
        Dispatch .KeyPressedEvent (logged 7 .KeyPressedEvent (fun _ (n : Nat) => (true, n + 1)))
            (.KeyPressedEvent { keycode := 256, «repeat» := false }) (0, []) =
          ((Event.KeyPressedEvent { keycode := 256, «repeat» := false }).withHandled
              ((fun _ (n : Nat) => (true, n + 1)) e 0).1,
            (((fun _ (n : Nat) => (true, n + 1)) e 0).2,
              [] ++ [(7, .KeyPressedEvent { keycode := 256, «repeat» := false })])) ∧
        Dispatch .KeyPressedEvent (fun _ (n : Nat) => (true, n + 1))
            (.KeyPressedEvent { keycode := 256, «repeat» := false }) 0 =
          ((Event.KeyPressedEvent { keycode := 256, «repeat» := false }).withHandled
              ((fun _ (n : Nat) => (true, n + 1)) e 0).1,
            ((fun _ (n : Nat) => (true, n + 1)) e 0).2) ∧
        (Dispatch .KeyPressedEvent (fun _ (n : Nat) => (true, n + 1))
            (.KeyPressedEvent { keycode := 256, «repeat» := false }) 0).1.handled =
          ((fun _ (n : Nat) => (true, n + 1)) e 0).1) ∧
      ((Event.KeyPressedEvent { keycode := 256, «repeat» := false }).handled = true →
        Dispatch .KeyPressedEvent (logged 7 .KeyPressedEvent (fun _ (n : Nat) => (true, n + 1)))
            (.KeyPressedEvent { keycode := 256, «repeat» := false }) (0, []) =
          (.KeyPressedEvent { keycode := 256, «repeat» := false }, (0, [])) ∧
        Dispatch .KeyPressedEvent (fun _ (n : Nat) => (true, n + 1))
            (.KeyPressedEvent { keycode := 256, «repeat» := false }) 0 =
          (.KeyPressedEvent { keycode := 256, «repeat» := false }, 0)) ∧
      (Dispatch .KeyPressedEvent (fun _ (n : Nat) => (true, n + 1))
          (.KeyPressedEvent { keycode := 256, «repeat» := false }) 0).1.withHandled false =
        (Event.KeyPressedEvent { keycode := 256, «repeat» := false }).withHandled false ∧
      (Dispatch .KeyPressedEvent (fun _ (n : Nat) => (true, n + 1))
          (.KeyPressedEvent { keycode := 256, «repeat» := false }) 0).1.kind = .KeyPressedEvent ∧
      Generic.EventDispatcher.Dispatch (Kind.alternative .KeyPressedEvent)
          (fun _ (n : Nat) => (true, n + 1))
          (.KeyPressedEvent { keycode := 256, «repeat» := false }) 0 =
        Dispatch .KeyPressedEvent (fun _ (n : Nat) => (true, n + 1))
          (.KeyPressedEvent { keycode := 256, «repeat» := false }) 0 :=
  ⟨rfl, dispatch_matching_kind (.KeyPressedEvent { keycode := 256, «repeat» := false })
    .KeyPressedEvent rfl (fun _ (n : Nat) => (true, n + 1)) 0 7 []⟩

/-- C8 (consumption latch).  Let `calls1` be any sequence of `Dispatch`
calls (any kinds, any callables, possibly empty) after which the record has
`handled` true.  Then any further calls `calls2` leave the record and the
state captured by the callables exactly as they were: the flag stays true
and no callable runs.  In particular, on a `WindowClosed` record with
`handled` false, `Dispatch<WindowClosedEvent>` with a callable returning true
followed by `Dispatch<WindowClosedEvent>` with any second callable leaves
`handled` true, and the invocation log shows the one call of the first
callable only. -/
theorem consumption_latch (ev : Event) (s : σ) (calls1 calls2 : List (Call σ))
    (h : (dispatchAll calls1 ev s).1.handled = true) :
    dispatchAll (calls1 ++ calls2) ev s = dispatchAll calls1 ev s ∧
    (dispatchAll (calls1 ++ calls2) ev s).1.handled = true ∧
    ∀ (e : WindowClosedEvent) (h1 h2 : WindowClosedEvent → σ → Bool × σ)
      (log : List (Nat × Event)), e.handled = false → (h1 e s).1 = true →
      dispatchAll [⟨.WindowClosedEvent, logged 1 .WindowClosedEvent h1⟩,
                   ⟨.WindowClosedEvent, logged 2 .WindowClosedEvent h2⟩]
          (.WindowClosedEvent e) (s, log) =
        (.WindowClosedEvent { e with handled := true },
          ((h1 e s).2, log ++ [(1, .WindowClosedEvent e)])) := by
  have h1 : dispatchAll (calls1 ++ calls2) ev s = dispatchAll calls1 ev s := by
    rw [dispatchAll_append, dispatchAll_handled calls2 _ _ h]
  refine ⟨h1, by rw [h1]; exact h, ?_⟩
  intro e f1 f2 log he hf
  obtain ⟨b⟩ := e
  obtain ⟨hd⟩ := b
  simp only at he
  subst he
  simp only [dispatchAll]
  have e1 : Dispatch .WindowClosedEvent (logged 1 .WindowClosedEvent f1)
      (.WindowClosedEvent { handled := false }) (s, log) =
      (.WindowClosedEvent { handled := true },
        ((f1 { handled := false } s).2, log ++ [(1, .WindowClosedEvent { handled := false })])) := by
    rw [dispatch_eq]
    simp [get_if, Event.handled, Event.withHandled, logged, Kind.store, hf]
  rw [e1]
  simp only
  rw [dispatch_handled .WindowClosedEvent (logged 2 .WindowClosedEvent f2)
    (.WindowClosedEvent { handled := true }) _ rfl]

/-- Witness of C8: the scenario of the spec, with callables that count their
invocations. -/
theorem consumption_latch_witness :
    (dispatchAll [⟨.WindowClosedEvent, fun _ (n : Nat) => (true, n + 1)⟩]
        (.WindowClosedEvent {}) 0).1.handled = true ∧
    dispatchAll ([⟨.WindowClosedEvent, fun _ (n : Nat) => (true, n + 1)⟩] ++
        [⟨.WindowClosedEvent, fun _ (n : Nat) => (false, n + 10)⟩])
        (.WindowClosedEvent {}) 0 = (.WindowClosedEvent { handled := true }, 1) :=
  ⟨by decide,
    ((consumption_latch (.WindowClosedEvent {}) 0
      [⟨.WindowClosedEvent, fun _ (n : Nat) => (true, n + 1)⟩]
      [⟨.WindowClosedEvent, fun _ (n : Nat) => (false, n + 10)⟩] (by decide)).1).trans
      (by decide)⟩

/-- C9 (independent-kind routing).  For a record whose active alternative is
not `K`, `Dispatch<K>` does not invoke the callable (the invocation log and
the captured state are unchanged) and returns the record unchanged; so a
`KeyPressed` record is unchanged by any number of
`Dispatch<WindowClosedEvent>` calls. -/
theorem independent_kind_routing (ev : Event) (K : Kind) (hK : ev.kind ≠ K)
    (func : K.T → σ → Bool × σ) (s : σ) (tag : Nat) (log : List (Nat × Event)) :
    Dispatch K func ev s = (ev, s) ∧
    Dispatch K (logged tag K func) ev (s, log) = (ev, (s, log)) ∧
    ∀ (e : KeyPressedEvent) (hs : List (WindowClosedEvent → σ → Bool × σ)),
      dispatchAll (hs.map (fun f => ⟨.WindowClosedEvent, f⟩)) (.KeyPressedEvent e) s =
        (.KeyPressedEvent e, s) := by
  refine ⟨dispatch_other K func ev s hK, dispatch_other K _ ev _ hK, ?_⟩
  intro e hs
  induction hs with
  | nil => rfl
  | cons f rest ih =>
    simp only [List.map_cons, dispatchAll]
    rw [dispatch_other .WindowClosedEvent f (.KeyPressedEvent e) s (by simp [Event.kind])]
    exact ih

/-- Witness of C9: a `KeyPressed` record and `Dispatch<WindowClosedEvent>`. -/
theorem independent_kind_routing_witness :
    (Event.KeyPressedEvent { keycode := 256, «repeat» := false }).kind ≠ .WindowClosedEvent ∧
    Dispatch .WindowClosedEvent (fun _ (n : Nat) => (true, n + 1))
        (.KeyPressedEvent { keycode := 256, «repeat» := false }) 0 =
      (.KeyPressedEvent { keycode := 256, «repeat» := false }, 0) :=
  ⟨by decide,
    (independent_kind_routing (.KeyPressedEvent { keycode := 256, «repeat» := false })
      .WindowClosedEvent (by decide) (fun _ (n : Nat) => (true, n + 1)) 0 0 []).1⟩

/-- C13 (dispatch is idempotent on the record).  For every record, kind and
callable whose `bool` result is a function of the struct it receives alone,
performing `Dispatch<K>(func)` twice in succession leaves the same record as
performing it once; so does the dispatcher of Events/Event.hpp. -/
theorem dispatch_idempotent (K : Kind) (func : K.T → σ → Bool × σ) (g : K.T → Bool)
    (hg : ∀ e s, (func e s).1 = g e) (ev : Event) (s : σ) :
    (Dispatch K func (Dispatch K func ev s).1 (Dispatch K func ev s).2).1 =
      (Dispatch K func ev s).1 ∧
    (Generic.EventDispatcher.Dispatch K.alternative func
        (Generic.EventDispatcher.Dispatch K.alternative func ev s).1
        (Generic.EventDispatcher.Dispatch K.alternative func ev s).2).1 =
      (Generic.EventDispatcher.Dispatch K.alternative func ev s).1 := by
  have key : (Dispatch K func (Dispatch K func ev s).1 (Dispatch K func ev s).2).1 =
      (Dispatch K func ev s).1 := by
    by_cases hK : ev.kind = K
    · subst hK
      by_cases hh : ev.handled = true
      · rw [dispatch_handled _ _ _ _ hh, dispatch_handled _ _ _ _ hh]
      · have hf : ev.handled = false := by simpa using hh
        obtain ⟨e, hget, -, -, -⟩ := store_get_if ev
        have h1 : Dispatch ev.kind func ev s = (ev.withHandled (g e), (func e s).2) := by
          rw [dispatch_eq, hget]; simp [hf, hg]
        rw [h1]
        cases hb : g e with
        | true => exact congrArg Prod.fst (dispatch_handled _ _ _ _ (withHandled_handled ev true))
        | false =>
          have hself : ev.withHandled false = ev := by
            have := withHandled_self ev
            rwa [hf] at this
          simp only [hself]
          rw [dispatch_eq, hget]
          simp [hf, hg, hb, hself]
    · rw [dispatch_other _ _ _ _ hK, dispatch_other _ _ _ _ hK]
  refine ⟨key, ?_⟩
  simp only [generic_dispatch_eq]
  exact key

/-- Witness of C13: a `KeyPressed` record and a callable that declines
repeats; it runs twice, the record is the same as after the first call. -/
theorem dispatch_idempotent_witness :
    (∀ (e : KeyPressedEvent) (s : Nat),
      ((fun (e : KeyPressedEvent) (n : Nat) => (!e.«repeat», n + 1)) e s).1 =
        (fun (e : KeyPressedEvent) => !e.«repeat») e) ∧
    (Dispatch .KeyPressedEvent (fun (e : KeyPressedEvent) (n : Nat) => (!e.«repeat», n + 1))
        (Dispatch .KeyPressedEvent (fun (e : KeyPressedEvent) (n : Nat) => (!e.«repeat», n + 1))
          (.KeyPressedEvent { keycode := 65, «repeat» := true }) 0).1
        (Dispatch .KeyPressedEvent (fun (e : KeyPressedEvent) (n : Nat) => (!e.«repeat», n + 1))
          (.KeyPressedEvent { keycode := 65, «repeat» := true }) 0).2).1 =
      (Dispatch .KeyPressedEvent (fun (e : KeyPressedEvent) (n : Nat) => (!e.«repeat», n + 1))
        (.KeyPressedEvent { keycode := 65, «repeat» := true }) 0).1 :=
  ⟨fun _ _ => rfl,
    (dispatch_idempotent .KeyPressedEvent
      (fun (e : KeyPressedEvent) (n : Nat) => (!e.«repeat», n + 1))
      (fun (e : KeyPressedEvent) => !e.«repeat») (fun _ _ => rfl)
      (.KeyPressedEvent { keycode := 65, «repeat» := true }) 0).1⟩

/-- C14 (static classification).  The category enumerators are `Window = 1`,
`Input = 2`, `Keyboard = 4`, `MouseButton = 8`, `Mouse = 16`.
`GetCategoryFlags` of every alternative of `Event` is a non-zero mask over
these five bits: `Window` for the five window events, `Input|Keyboard` for
`KeyPressed`, `KeyReleased` and `KeyTyped`, `Input|MouseButton` for the two
mouse-button events, `Input|Mouse` for `MouseMoved` and `MouseScrolled`; an
alternative has the `Input` bit exactly when it lacks the `Window` bit.  The
value is fixed by the alternative alone: records with the same active
alternative have the same flags, whatever their members hold. -/
theorem static_classification :
    (EventCategoryWindow = 1 ∧ EventCategoryInput = 2 ∧ EventCategoryKeyboard = 4 ∧
      EventCategoryMouseButton = 8 ∧ EventCategoryMouse = 16) ∧
    (∀ K : Kind, K.GetCategoryFlags ≠ 0 ∧ Int.land K.GetCategoryFlags 31 = K.GetCategoryFlags) ∧
    (Kind.GetCategoryFlags .WindowClosedEvent = EventCategoryWindow ∧
      Kind.GetCategoryFlags .WindowResizedEvent = EventCategoryWindow ∧
      Kind.GetCategoryFlags .WindowMovedEvent = EventCategoryWindow ∧
      Kind.GetCategoryFlags .WindowMinimizeEvent = EventCategoryWindow ∧
      Kind.GetCategoryFlags .WindowFocusEvent = EventCategoryWindow) ∧
    (Kind.GetCategoryFlags .KeyPressedEvent = Int.lor EventCategoryInput EventCategoryKeyboard ∧
      Kind.GetCategoryFlags .KeyReleasedEvent = Int.lor EventCategoryInput EventCategoryKeyboard ∧
      Kind.GetCategoryFlags .KeyTypedEvent = Int.lor EventCategoryInput EventCategoryKeyboard) ∧
    (Kind.GetCategoryFlags .MouseButtonPressedEvent =
        Int.lor EventCategoryInput EventCategoryMouseButton ∧
      Kind.GetCategoryFlags .MouseButtonReleasedEvent =
        Int.lor EventCategoryInput EventCategoryMouseButton) ∧
    (Kind.GetCategoryFlags .MouseMovedEvent = Int.lor EventCategoryInput EventCategoryMouse ∧
      Kind.GetCategoryFlags .MouseScrolledEvent = Int.lor EventCategoryInput EventCategoryMouse) ∧
    (∀ K : Kind, Int.land K.GetCategoryFlags EventCategoryInput ≠ 0 ↔
      Int.land K.GetCategoryFlags EventCategoryWindow = 0) ∧
    (∀ ev1 ev2 : Event, ev1.kind = ev2.kind →
      ev1.kind.GetCategoryFlags = ev2.kind.GetCategoryFlags) ∧
    (∀ (ev : Event) (b : Bool), (ev.withHandled b).kind.GetCategoryFlags =
      ev.kind.GetCategoryFlags) := by
  refine ⟨by decide, ?_, by decide, by decide, by decide, by decide, ?_, ?_, ?_⟩
  · intro K; cases K <;> decide
  · intro K; cases K <;> decide
  · intro ev1 ev2 h; rw [h]
  · intro ev b; rw [withHandled_kind]

end Core.EventDispatcher

/-! ## The driving loop -/

namespace Core.Application

open Core.EventDispatcher

variable {σ : Type}

theorem registerAll_eq (fns : List (EventListenerFn σ)) :
    ∀ app : Application σ, fns.foldl RegisterOnEvent app =
      { app with s_EventListeners := app.s_EventListeners ++ fns } := by
  induction fns with
  | nil => intro app; simp
  | cons fn rest ih => intro app; simp [List.foldl_cons, ih, RegisterOnEvent]

theorem listenersLoop_traced (fns : List (EventListenerFn σ)) :
    ∀ (i : Nat) (ev : Event) (w : σ) (log : List (Nat × Event)),
      listenersLoop (tracedFrom i fns) ev (w, log) =
        ((fanOut i fns ev w).2.1, ((fanOut i fns ev w).2.2, log ++ (fanOut i fns ev w).1)) := by
  induction fns with
  | nil => intro i ev w log; simp [tracedFrom, listenersLoop, fanOut]
  | cons fn rest ih =>
    intro i ev w log
    simp [tracedFrom, listenersLoop, fanOut, traced, ih]

theorem fanOut_tags (fns : List (EventListenerFn σ)) :
    ∀ (i : Nat) (ev : Event) (w : σ),
      (fanOut i fns ev w).1.map Prod.fst = List.range' i fns.length := by
  induction fns with
  | nil => intro i ev w; rfl
  | cons fn rest ih => intro i ev w; simp [fanOut, ih, List.range']

/-- One iteration of the outer loop: the listeners run, in order, on the
record as the built-in routes left it; the built-in routes change neither
the listener vector nor the queue. -/
theorem processEvent_spec (app : Application σ) (w : σ) (ev : Event) :
    ∃ app', processEvent app w ev =
      (app', (listenersLoop app.s_EventListeners (afterBuiltins ev) w).2,
             (listenersLoop app.s_EventListeners (afterBuiltins ev) w).1) ∧
      app'.s_EventListeners = app.s_EventListeners ∧
      app'.m_EventQueue = app.m_EventQueue := by
  unfold processEvent
  simp only [dispatch_eq]
  cases ev
  case WindowClosedEvent e =>
    obtain ⟨⟨hd⟩⟩ := e
    cases hd <;> exact ⟨_, rfl, rfl, rfl⟩
  case WindowMinimizeEvent e =>
    obtain ⟨⟨hd⟩, m⟩ := e
    cases hd <;> exact ⟨_, rfl, rfl, rfl⟩
  all_goals exact ⟨_, rfl, rfl, rfl⟩

theorem processLoop_traced (fns : List (EventListenerFn σ)) (polled : List Event) :
    ∀ (app : Application (σ × List (Nat × Event))) (w : σ) (log : List (Nat × Event)),
      app.s_EventListeners = tracedFrom 0 fns →
      ∃ app' w' recs, processLoop polled app (w, log) =
          (app', (w', log ++ expectedLog fns polled w), recs) ∧
        recs.length = polled.length := by
  induction polled with
  | nil => intro app w log _; exact ⟨app, w, [], by simp [processLoop, expectedLog], rfl⟩
  | cons ev rest ih =>
    intro app w log hl
    obtain ⟨app1, h1, hl1, -⟩ := processEvent_spec app (w, log) ev
    rw [hl, listenersLoop_traced] at h1
    obtain ⟨app', w', recs, h2, hlen⟩ := ih app1 (fanOut 0 fns (afterBuiltins ev) w).2.2
      (log ++ (fanOut 0 fns (afterBuiltins ev) w).1) (hl1.trans hl)
    refine ⟨app', w', (fanOut 0 fns (afterBuiltins ev) w).2.1 :: recs, ?_, by simp [hlen]⟩
    simp only [processLoop, h1, h2, expectedLog, List.append_assoc]

theorem expectedLog_tags (fns : List (EventListenerFn σ)) (polled : List Event) :
    ∀ w : σ, (expectedLog fns polled w).map Prod.fst =
      (polled.map (fun _ => List.range fns.length)).flatten := by
  induction polled with
  | nil => intro w; rfl
  | cons ev rest ih =>
    intro w
    simp [expectedLog, fanOut_tags, ih, List.range_eq_range']

/-- C10 (listener fan-out).  Register any listeners `fns`, instrumented with
their registration index, on an application with no listeners, and let
`Poll` return `polled`.  Then `ProcessEvents` returns, and the invocation log
is exactly the prescribed one: the records in polled order, and for each
record every listener once, in registration order, the first receiving the
record as the built-in routes left it and each next one the record as the
previous listener left it (`expectedLog`); whatever the `handled` flags
are, the tags in the log are `0 .. n-1` repeated once per polled record. -/
theorem listener_fan_out (fns : List (EventListenerFn σ))
    (app0 : Application (σ × List (Nat × Event))) (h0 : app0.s_EventListeners = [])
    (fuel : Nat) (polled : List Event) (q : EventQueue)
    (hpoll : app0.m_EventQueue.Poll fuel = .ok (polled, q)) (w : σ) :
    ∃ app w1 log recs,
      ProcessEvents fuel ((tracedFrom 0 fns).foldl RegisterOnEvent app0) (w, []) =
        .ok (app, (w1, log), recs) ∧
      log = expectedLog fns polled w ∧
      log.map Prod.fst = (polled.map (fun _ => List.range fns.length)).flatten ∧
      recs.length = polled.length := by
  obtain ⟨app, w1, recs, h, hlen⟩ := processLoop_traced fns polled
    { (tracedFrom 0 fns).foldl RegisterOnEvent app0 with m_EventQueue := q } w []
    (by simp [registerAll_eq, h0])
  refine ⟨app, w1, expectedLog fns polled w, recs, ?_, rfl, expectedLog_tags _ _ _, hlen⟩
  unfold ProcessEvents
  have hq : ((tracedFrom 0 fns).foldl RegisterOnEvent app0).m_EventQueue = app0.m_EventQueue := by
    simp [registerAll_eq]
  rw [hq, hpoll]
  simp only [h, List.nil_append]

set_option maxRecDepth 100000 in
/-- Witness of C10: two listeners on the two records of `scenarioQueue`; the
first marks key presses handled, the second counts its invocations. -/
theorem listener_fan_out_witness :
    (scenarioApp (Nat × List (Nat × Event))).s_EventListeners = [] ∧
    (scenarioApp (Nat × List (Nat × Event))).m_EventQueue.Poll 2 =
      .ok ([.WindowResizedEvent { width := 800, height := 600 },
            .KeyPressedEvent { keycode := 256, «repeat» := false }],
           { scenarioQueue with m_Head := 2 }) ∧
    ∃ app w1 log recs,
      ProcessEvents 2 ((tracedFrom 0
          [fun ev (n : Nat) => Dispatch .KeyPressedEvent (fun _ k => (true, k)) ev n,
           fun ev (n : Nat) => (ev, n + 1)]).foldl RegisterOnEvent
          (scenarioApp (Nat × List (Nat × Event)))) (0, []) = .ok (app, (w1, log), recs) ∧
      log = [(0, .WindowResizedEvent { width := 800, height := 600 }),
             (1, .WindowResizedEvent { width := 800, height := 600 }),
             (0, .KeyPressedEvent { keycode := 256, «repeat» := false }),
             (1, .KeyPressedEvent { handled := true, keycode := 256, «repeat» := false })] := by
  have hp : (scenarioApp (Nat × List (Nat × Event))).m_EventQueue.Poll 2 =
      .ok ([.WindowResizedEvent { width := 800, height := 600 },
            .KeyPressedEvent { keycode := 256, «repeat» := false }],
           { scenarioQueue with m_Head := 2 }) := rfl
  obtain ⟨app, w1, log, recs, h, hlog, -, -⟩ := listener_fan_out
    [fun ev (n : Nat) => Dispatch .KeyPressedEvent (fun _ k => (true, k)) ev n,
     fun ev (n : Nat) => (ev, n + 1)]
    (scenarioApp (Nat × List (Nat × Event))) rfl 2 _ _ hp 0
  exact ⟨rfl, hp, app, w1, log, recs, h, hlog.trans (by decide)⟩

/-! ## The built-in routes and listeners that only dispatch -/

/-- One iteration of the outer loop, exactly: what the two built-in routes do
to the application, and the listeners run on the record as they left it. -/
theorem processEvent_exact (app : Application σ) (w : σ) (ev : Event) :
    processEvent app w ev =
      ({ app with
          m_Running := if closes ev then false else app.m_Running
          m_Minimized := (minimizeOf ev).getD app.m_Minimized },
        (listenersLoop app.s_EventListeners (afterBuiltins ev) w).2,
        (listenersLoop app.s_EventListeners (afterBuiltins ev) w).1) := by
  unfold processEvent
  simp only [dispatch_eq]
  cases ev
  case WindowClosedEvent e =>
    obtain ⟨⟨hd⟩⟩ := e
    cases hd <;> rfl
  case WindowMinimizeEvent e =>
    obtain ⟨⟨hd⟩, m⟩ := e
    cases hd <;> rfl
  all_goals rfl

theorem lastMinimize_cons (ev : Event) (rest : List Event) (m : Bool) :
    (lastMinimize (ev :: rest)).getD m = (lastMinimize rest).getD ((minimizeOf ev).getD m) := by
  unfold lastMinimize
  cases h : minimizeOf ev with
  | none => simp [List.filterMap_cons, h]
  | some b =>
    simp only [List.filterMap_cons, h, List.getLast?_cons, Option.getD_some]

/-- The application after the outer loop: `m_Running` is cleared when some
polled record makes the built-in close route run and is otherwise kept;
`m_Minimized` is set by the last record that makes the built-in minimize
route run; the listener vector and the queue are untouched. -/
theorem processLoop_app (polled : List Event) :
    ∀ (app : Application σ) (w : σ),
      (processLoop polled app w).1 =
        { app with
            m_Running := if polled.any closes then false else app.m_Running
            m_Minimized := (lastMinimize polled).getD app.m_Minimized } := by
  induction polled with
  | nil => intro app w; rfl
  | cons ev rest ih =>
    intro app w
    simp only [processLoop, ih, processEvent_exact, lastMinimize_cons, List.any_cons]
    by_cases h1 : closes ev = true <;> by_cases h2 : rest.any closes = true <;> simp [h1, h2]

theorem processLoop_length (polled : List Event) :
    ∀ (app : Application σ) (w : σ), (processLoop polled app w).2.2.length = polled.length := by
  induction polled with
  | nil => intro app w; rfl
  | cons ev rest ih => intro app w; simp [processLoop, ih]

theorem script_exec_handled (sc : Script σ) :
    ∀ (ev : Event) (s : σ), ev.handled = true → (sc.exec ev s).1 = ev := by
  induction sc with
  | done => intro ev s _; rfl
  | effect f next ih => intro ev s h; exact ih ev (f s) h
  | Dispatch K func next ih =>
    intro ev s h
    simp only [Script.exec, dispatch_handled K func ev s h]
    exact ih _ ev _ h

theorem listenersLoop_scripts_handled (scripts : List (Script σ)) :
    ∀ (ev : Event) (w : σ), ev.handled = true →
      (listenersLoop (scripts.map Script.exec) ev w).1 = ev := by
  induction scripts with
  | nil => intro ev w _; rfl
  | cons sc rest ih =>
    intro ev w h
    simp only [List.map_cons, listenersLoop]
    rw [script_exec_handled sc ev w h]
    exact ih ev _ h

theorem processLoop_recs (scripts : List (Script σ)) (polled : List Event) :
    ∀ (app : Application σ) (w : σ) (i : Nat) (ev : Event),
      app.s_EventListeners = scripts.map Script.exec → polled[i]? = some ev →
      (afterBuiltins ev).handled = true →
      (processLoop polled app w).2.2[i]? = some (afterBuiltins ev) := by
  induction polled with
  | nil => intro app w i ev _ h; simp at h
  | cons ev0 rest ih =>
    intro app w i ev hL hi hh
    cases i with
    | zero =>
      simp only [List.getElem?_cons_zero, Option.some.injEq] at hi
      subst hi
      simp only [processLoop, processEvent_exact, List.getElem?_cons_zero, hL]
      rw [listenersLoop_scripts_handled scripts _ _ hh]
    | succ i =>
      simp only [List.getElem?_cons_succ] at hi
      simp only [processLoop, List.getElem?_cons_succ]
      exact ih _ _ i ev (by rw [processEvent_exact]; exact hL) hi hh

theorem closingQueue_poll :
    closingQueue.Poll 3 =
      .ok ([.WindowMinimizeEvent { minimized := true }, .WindowClosedEvent {},
            .KeyPressedEvent { keycode := 256, «repeat» := false }],
           { closingQueue with m_Head := 3 }) := by
  set_option maxRecDepth 100000 in
  rfl

/-- C12 (built-in close handling).  Let the listeners be any listeners that
act on the record through the dispatcher only, and let `Poll` return
`polled`.  Then `ProcessEvents` returns; if `m_Running` was false it is still
false; and if some polled record is a `WindowClosed` record with `handled`
false, then afterwards `m_Running` is false and that record has `handled`
true. -/
theorem builtin_close_handling (scripts : List (Script σ)) (app : Application σ)
    (hL : app.s_EventListeners = scripts.map Script.exec) (fuel : Nat) (polled : List Event)
    (q : EventQueue) (hpoll : app.m_EventQueue.Poll fuel = .ok (polled, q)) (w : σ) :
    ∃ app' w' recs, ProcessEvents fuel app w = .ok (app', w', recs) ∧
      recs.length = polled.length ∧
      (app.m_Running = false → app'.m_Running = false) ∧
      ∀ i : Nat, polled[i]? = some (Event.WindowClosedEvent { handled := false }) →
        app'.m_Running = false ∧
        recs[i]? = some (Event.WindowClosedEvent { handled := true }) := by
  refine ⟨_, _, _, by unfold ProcessEvents; rw [hpoll], processLoop_length _ _ _, ?_, ?_⟩
  · intro hr
    rw [processLoop_app]
    simp only [hr]
    split <;> rfl
  · intro i hi
    constructor
    · rw [processLoop_app]
      have hany : polled.any closes = true :=
        List.any_eq_true.2 ⟨_, List.getElem?_mem hi, rfl⟩
      simp only [hany, if_true]
    · exact processLoop_recs scripts polled _ w i
        (Event.WindowClosedEvent { handled := false }) hL hi rfl

/-- Witness of C12: the three records of `closingQueue`, one of them a
`WindowClosed` record, and a listener that tries to claim window close and
key presses. -/
theorem builtin_close_handling_witness :
    (closingApp [(Script.Dispatch .WindowClosedEvent (fun _ (n : Nat) => (false, n + 1))
        (fun _ => .Dispatch .KeyPressedEvent (fun _ n => (true, n + 10))
          (fun _ => .done))).exec]).s_EventListeners =
      [Script.Dispatch .WindowClosedEvent (fun _ (n : Nat) => (false, n + 1))
        (fun _ => .Dispatch .KeyPressedEvent (fun _ n => (true, n + 10))
          (fun _ => .done))].map Script.exec ∧
    ∃ app' w' recs,
      ProcessEvents 3 (closingApp [(Script.Dispatch .WindowClosedEvent
          (fun _ (n : Nat) => (false, n + 1))
          (fun _ => .Dispatch .KeyPressedEvent (fun _ n => (true, n + 10))
            (fun _ => .done))).exec]) 0 = .ok (app', w', recs) ∧
      app'.m_Running = false ∧
      recs[1]? = some (Event.WindowClosedEvent { handled := true }) :=
  have w := builtin_close_handling
    [Script.Dispatch .WindowClosedEvent (fun _ (n : Nat) => (false, n + 1))
      (fun _ => .Dispatch .KeyPressedEvent (fun _ n => (true, n + 10)) (fun _ => .done))]
    (closingApp [(Script.Dispatch .WindowClosedEvent (fun _ (n : Nat) => (false, n + 1))
      (fun _ => .Dispatch .KeyPressedEvent (fun _ n => (true, n + 10))
        (fun _ => .done))).exec]) rfl 3 _ _ closingQueue_poll 0
  ⟨rfl, w.elim (fun app' h1 => h1.elim (fun w' h2 => h2.elim (fun recs h3 =>
    ⟨app', w', recs, h3.1, (h3.2.2.2 1 rfl).1, (h3.2.2.2 1 rfl).2⟩)))⟩

/-- C18 (built-in minimize handling).  Whatever the listeners are, when
`Poll` returns `polled`, `ProcessEvents` returns and leaves `m_Minimized`
equal to the `minimized` member of the last polled `WindowMinimize` record
with `handled` false, and unchanged when there is none.  The built-in
callable returns false: on a `WindowMinimize` record with `handled` false, an
application whose registered listener calls `Dispatch<WindowMinimizeEvent>`
stores `minimized`, hands the record to the listener with `handled` still
false, and the callable of the listener is invoked on it once (the
invocation log grows by that record) and decides the flag. -/
theorem builtin_minimize_handling (app : Application σ) (fuel : Nat) (polled : List Event)
    (q : EventQueue) (hpoll : app.m_EventQueue.Poll fuel = .ok (polled, q)) (w : σ) :
    (∃ app' w' recs, ProcessEvents fuel app w = .ok (app', w', recs) ∧
      app'.m_Minimized = (lastMinimize polled).getD app.m_Minimized) ∧
    ∀ (e : WindowMinimizeEvent) (func : WindowMinimizeEvent → σ → Bool × σ) (tag : Nat)
      (app1 : Application (σ × List (Nat × Event))) (s : σ) (log : List (Nat × Event)),
      e.handled = false →
      app1.s_EventListeners = [routing tag .WindowMinimizeEvent func] →
      afterBuiltins (.WindowMinimizeEvent e) = .WindowMinimizeEvent e ∧
      processEvent app1 (s, log) (.WindowMinimizeEvent e) =
        ({ app1 with m_Minimized := e.minimized },
          ((func e s).2, log ++ [(tag, .WindowMinimizeEvent e)]),
          .WindowMinimizeEvent { e with handled := (func e s).1 }) := by
  constructor
  · refine ⟨_, _, _, by unfold ProcessEvents; rw [hpoll], ?_⟩
    rw [processLoop_app]
  · intro e func tag app1 s log he hL
    obtain ⟨⟨hd⟩, m⟩ := e
    simp only at he
    subst he
    refine ⟨rfl, ?_⟩
    rw [processEvent_exact, hL]
    rfl

/-- Witness of C18: the three records of `closingQueue`, the first of them
`WindowMinimizeEvent(true)`. -/
theorem builtin_minimize_handling_witness :
    (closingApp ([] : List (EventListenerFn Nat))).m_EventQueue.Poll 3 =
      .ok ([.WindowMinimizeEvent { minimized := true }, .WindowClosedEvent {},
            .KeyPressedEvent { keycode := 256, «repeat» := false }],
           { closingQueue with m_Head := 3 }) ∧
    ∃ app' w' recs,
      ProcessEvents 3 (closingApp ([] : List (EventListenerFn Nat))) 0 = .ok (app', w', recs) ∧
      app'.m_Minimized = true :=
  have w := (builtin_minimize_handling (closingApp ([] : List (EventListenerFn Nat))) 3 _ _
    closingQueue_poll 0).1
  ⟨closingQueue_poll, w.elim (fun app' h1 => h1.elim (fun w' h2 => h2.elim (fun recs h3 =>
    ⟨app', w', recs, h3.1, h3.2.trans rfl⟩)))⟩

theorem afterBuiltins_closed (ev : Event) :
    (afterBuiltins ev).kind ≠ .WindowClosedEvent ∨ (afterBuiltins ev).handled = true := by
  unfold afterBuiltins
  by_cases h : ev.kind = .WindowClosedEvent
  · rw [if_pos h]; exact Or.inr (withHandled_handled ev true)
  · rw [if_neg h]; exact Or.inl h

theorem dispatch_logged_noclose (tag : Nat) (K : Kind) (func : K.T → σ → Bool × σ)
    (ev : Event) (s : σ) (log : List (Nat × Event))
    (hP : ev.kind ≠ .WindowClosedEvent ∨ ev.handled = true)
    (hlog : ∀ x ∈ log, x.2.kind ≠ Kind.WindowClosedEvent) :
    ((Dispatch K (logged tag K func) ev (s, log)).1.kind ≠ .WindowClosedEvent ∨
      (Dispatch K (logged tag K func) ev (s, log)).1.handled = true) ∧
    ∀ x ∈ (Dispatch K (logged tag K func) ev (s, log)).2.2, x.2.kind ≠ Kind.WindowClosedEvent := by
  by_cases hh : ev.handled = true
  · rw [dispatch_handled _ _ _ _ hh]; exact ⟨hP, hlog⟩
  · have hf : ev.handled = false := by simpa using hh
    have hk : ev.kind ≠ .WindowClosedEvent := hP.resolve_right hh
    by_cases hK : ev.kind = K
    · subst hK
      obtain ⟨e, hget, hst, -, -⟩ := store_get_if ev
      rw [dispatch_eq, hget]
      simp only [hf, if_true, logged, hst]
      refine ⟨Or.inl (by rw [withHandled_kind]; exact hk), ?_⟩
      intro x hx
      rcases List.mem_append.1 hx with h | h
      · exact hlog x h
      · simp only [List.mem_singleton] at h
        rw [h]; exact hk
    · rw [dispatch_other _ _ _ _ hK]; exact ⟨hP, hlog⟩

theorem script_logged_noclose (tag : Nat) (sc : Script σ) :
    ∀ (ev : Event) (s : σ) (log : List (Nat × Event)),
      (ev.kind ≠ .WindowClosedEvent ∨ ev.handled = true) →
      (∀ x ∈ log, x.2.kind ≠ Kind.WindowClosedEvent) →
      (((sc.logged tag).exec ev (s, log)).1.kind ≠ .WindowClosedEvent ∨
        ((sc.logged tag).exec ev (s, log)).1.handled = true) ∧
      ∀ x ∈ ((sc.logged tag).exec ev (s, log)).2.2, x.2.kind ≠ Kind.WindowClosedEvent := by
  induction sc with
  | done => intro ev s log hP hlog; exact ⟨hP, hlog⟩
  | effect f next ih => intro ev s log hP hlog; exact ih ev (f s) log hP hlog
  | Dispatch K func next ih =>
    intro ev s log hP hlog
    obtain ⟨h1, h2⟩ := dispatch_logged_noclose tag K func ev s log hP hlog
    simp only [Script.logged, Script.exec]
    exact ih _ _ _ _ h1 h2

theorem listenersLoop_noclose (tag : Nat) (scripts : List (Script σ)) :
    ∀ (ev : Event) (s : σ) (log : List (Nat × Event)),
      (ev.kind ≠ .WindowClosedEvent ∨ ev.handled = true) →
      (∀ x ∈ log, x.2.kind ≠ Kind.WindowClosedEvent) →
      ∀ x ∈ (listenersLoop (scripts.map (fun sc => (sc.logged tag).exec)) ev (s, log)).2.2,
        x.2.kind ≠ Kind.WindowClosedEvent := by
  induction scripts with
  | nil => intro ev s log _ hlog; exact hlog
  | cons sc rest ih =>
    intro ev s log hP hlog
    obtain ⟨h1, h2⟩ := script_logged_noclose tag sc ev s log hP hlog
    simp only [List.map_cons, listenersLoop]
    exact ih _ _ _ h1 h2

theorem processLoop_noclose (tag : Nat) (scripts : List (Script σ)) (polled : List Event) :
    ∀ (app : Application (σ × List (Nat × Event))) (s : σ) (log : List (Nat × Event)),
      app.s_EventListeners = scripts.map (fun sc => (sc.logged tag).exec) →
      (∀ x ∈ log, x.2.kind ≠ Kind.WindowClosedEvent) →
      ∀ x ∈ (processLoop polled app (s, log)).2.1.2, x.2.kind ≠ Kind.WindowClosedEvent := by
  induction polled with
  | nil => intro app s log _ hlog; exact hlog
  | cons ev rest ih =>
    intro app s log hL hlog
    simp only [processLoop, processEvent_exact]
    refine ih _ _ _ hL ?_
    rw [hL]
    exact listenersLoop_noclose tag scripts _ s log (afterBuiltins_closed ev) hlog

/-- C20 (a listener can never handle window close).  Let the listeners be
any listeners that act on the record through the dispatcher only, every
callable they pass to `Dispatch` instrumented, and let `Poll` return
`polled`.  Then `ProcessEvents` returns and its invocation log holds no
invocation on a `WindowClosed` record: no callable passed by a listener to
`Dispatch<WindowClosedEvent>` ran.  The reason: every polled record reaches
the listeners either not being a `WindowClosed` record or with `handled`
true (it was so already, or the built-in route set it). -/
theorem listener_never_handles_close (tag : Nat) (scripts : List (Script σ))
    (app : Application (σ × List (Nat × Event)))
    (hL : app.s_EventListeners = scripts.map (fun sc => (sc.logged tag).exec))
    (fuel : Nat) (polled : List Event) (q : EventQueue)
    (hpoll : app.m_EventQueue.Poll fuel = .ok (polled, q)) (w : σ) :
    ∃ app' w' log recs, ProcessEvents fuel app (w, []) = .ok (app', (w', log), recs) ∧
      (∀ x ∈ log, x.2.kind ≠ Kind.WindowClosedEvent) ∧
      ∀ ev ∈ polled, (afterBuiltins ev).kind ≠ .WindowClosedEvent ∨
        (afterBuiltins ev).handled = true := by
  refine ⟨_, _, _, _, by unfold ProcessEvents; rw [hpoll], ?_, fun ev _ => afterBuiltins_closed ev⟩
  exact processLoop_noclose tag scripts polled _ w [] hL (by simp)

/-- Witness of C20: the three records of `closingQueue` and a listener that
calls `Dispatch<WindowClosedEvent>` and then `Dispatch<KeyPressedEvent>`:
only the key press reaches a callable. -/
theorem listener_never_handles_close_witness :
    (closingApp [((Script.Dispatch .WindowClosedEvent (fun _ (n : Nat) => (false, n + 1))
        (fun _ => .Dispatch .KeyPressedEvent (fun _ n => (true, n + 10))
          (fun _ => .done))).logged 5).exec]).s_EventListeners =
      [Script.Dispatch .WindowClosedEvent (fun _ (n : Nat) => (false, n + 1))
        (fun _ => .Dispatch .KeyPressedEvent (fun _ n => (true, n + 10))
          (fun _ => .done))].map (fun sc => (sc.logged 5).exec) ∧
    ProcessEvents 3 (closingApp [((Script.Dispatch .WindowClosedEvent
        (fun _ (n : Nat) => (false, n + 1))
        (fun _ => .Dispatch .KeyPressedEvent (fun _ n => (true, n + 10))
          (fun _ => .done))).logged 5).exec]) (0, []) =
      .ok ({ closingApp [((Script.Dispatch .WindowClosedEvent
              (fun _ (n : Nat) => (false, n + 1))
              (fun _ => .Dispatch .KeyPressedEvent (fun _ n => (true, n + 10))
                (fun _ => .done))).logged 5).exec] with
              m_Running := false, m_Minimized := true,
              m_EventQueue := { closingQueue with m_Head := 3 } },
           (10, [(5, .KeyPressedEvent { keycode := 256, «repeat» := false })]),
           [.WindowMinimizeEvent { minimized := true },
            .WindowClosedEvent { handled := true },
            .KeyPressedEvent { handled := true, keycode := 256, «repeat» := false }]) ∧
    ∃ app' w' log recs,
      ProcessEvents 3 (closingApp [((Script.Dispatch .WindowClosedEvent
          (fun _ (n : Nat) => (false, n + 1))
          (fun _ => .Dispatch .KeyPressedEvent (fun _ n => (true, n + 10))
            (fun _ => .done))).logged 5).exec]) (0, []) = .ok (app', (w', log), recs) ∧
      ∀ x ∈ log, x.2.kind ≠ Kind.WindowClosedEvent :=
  have w := listener_never_handles_close 5
    [Script.Dispatch .WindowClosedEvent (fun _ (n : Nat) => (false, n + 1))
      (fun _ => .Dispatch .KeyPressedEvent (fun _ n => (true, n + 10)) (fun _ => .done))]
    (closingApp [((Script.Dispatch .WindowClosedEvent (fun _ (n : Nat) => (false, n + 1))
      (fun _ => .Dispatch .KeyPressedEvent (fun _ n => (true, n + 10))
        (fun _ => .done))).logged 5).exec]) rfl 3 _ _ closingQueue_poll 0
  ⟨rfl, by unfold ProcessEvents; rw [show (closingApp _).m_EventQueue = closingQueue from rfl,
      closingQueue_poll]; rfl,
    w.elim (fun app' h1 => h1.elim (fun w' h2 => h2.elim (fun log h3 => h3.elim (fun recs h4 =>
      ⟨app', w', log, recs, h4.1, h4.2.1⟩))))⟩

theorem afterBuiltins_unhandled (ev : Event) (hf : (afterBuiltins ev).handled = false) :
    afterBuiltins ev = ev := by
  unfold afterBuiltins at hf ⊢
  by_cases h : ev.kind = .WindowClosedEvent
  · rw [if_pos h, withHandled_handled] at hf; cases hf
  · rw [if_neg h]

theorem scenarioQueue_poll :
    scenarioQueue.Poll 2 =
      .ok ([.WindowResizedEvent { width := 800, height := 600 },
            .KeyPressedEvent { keycode := 256, «repeat» := false }],
           { scenarioQueue with m_Head := 2 }) := by
  set_option maxRecDepth 100000 in
  rfl

/-- C11, as stated, fails: two listeners are registered that both call
`Dispatch<KeyPressedEvent>`; the callable of the first returns false, and on
the polled `KeyPressed` record the callable of the second is invoked too: the
invocation log holds both, and the state shows both ran (`0 + 1 + 10`). -/
theorem first_wins_counterexample :
    (ProcessEvents 2
        (RegisterOnEvent
          (RegisterOnEvent (scenarioApp (Nat × List (Nat × Event)))
            (routing 1 .KeyPressedEvent (fun _ n => (false, n + 1))))
          (routing 2 .KeyPressedEvent (fun _ n => (true, n + 10)))) (0, [])).map
        (fun r => r.2.1) =
      .ok (11, [(1, .KeyPressedEvent { keycode := 256, «repeat» := false }),
                (2, .KeyPressedEvent { keycode := 256, «repeat» := false })]) := by
  unfold ProcessEvents
  rw [show (RegisterOnEvent
        (RegisterOnEvent (scenarioApp (Nat × List (Nat × Event)))
          (routing 1 .KeyPressedEvent (fun _ n => (false, n + 1))))
        (routing 2 .KeyPressedEvent (fun _ n => (true, n + 10)))).m_EventQueue =
      scenarioQueue from rfl, scenarioQueue_poll]
  rfl

theorem listenersLoop_append (l1 l2 : List (EventListenerFn σ)) :
    ∀ (ev : Event) (w : σ), listenersLoop (l1 ++ l2) ev w =
      listenersLoop l2 (listenersLoop l1 ev w).1 (listenersLoop l1 ev w).2 := by
  induction l1 with
  | nil => intro ev w; rfl
  | cons l rest ih => intro ev w; exact ih _ _

theorem invocations_append (t : Nat) (l1 l2 : List (Nat × Event)) :
    invocations t (l1 ++ l2) = invocations t l1 ++ invocations t l2 := by
  simp [invocations]

theorem invocations_bystanders (t : Nat) (ht : t ≠ 0) (l : List (Nat × Event))
    (hl : ∀ x ∈ l, x.1 = 0) : invocations t l = [] := by
  unfold invocations
  rw [List.map_eq_nil_iff, List.filter_eq_nil_iff]
  intro x hx
  rw [hl x hx]
  simpa using Ne.symm ht

theorem get_if_of_kind (r : Event) (K : Kind) (h : r.kind = K) :
    ∃ e, get_if K r = some e ∧ K.store e = r := by
  subst h
  obtain ⟨e, h1, h2, -, -⟩ := store_get_if r
  exact ⟨e, h1, h2⟩

theorem afterBuiltins_kind (ev : Event) : (afterBuiltins ev).kind = ev.kind := by
  unfold afterBuiltins
  split
  · exact withHandled_kind ev true
  · rfl

theorem routing_eq (t : Nat) (K : Kind) (h : K.T → σ → Bool × σ) (r : Event) (e : K.T)
    (hget : get_if K r = some e) (hst : K.store e = r) (s : σ) (log : List (Nat × Event)) :
    routing t K h r (s, log) =
      if r.handled = false then (r.withHandled (h e s).1, ((h e s).2, log ++ [(t, r)]))
      else (r, (s, log)) := by
  unfold routing
  rw [dispatch_eq, hget]
  simp only [logged, hst]

/-- What a call of `Dispatch` with a callable instrumented under tag `0`
can do: change the `handled` flag, never from true to false, and append
entries with tag `0` to the log. -/
theorem dispatch_bystander (K : Kind) (func : K.T → σ → Bool × σ) (ev : Event) (s : σ)
    (log : List (Nat × Event)) :
    ∃ b s' extra, Dispatch K (logged 0 K func) ev (s, log) =
        (ev.withHandled b, (s', log ++ extra)) ∧
      (∀ x ∈ extra, x.1 = 0) ∧ (ev.handled = true → b = true) := by
  by_cases hh : ev.handled = true
  · refine ⟨true, s, [], ?_, by simp, fun _ => rfl⟩
    rw [dispatch_handled _ _ _ _ hh, List.append_nil]
    have := withHandled_self ev
    rw [hh] at this
    rw [this]
  · have hf : ev.handled = false := by simpa using hh
    by_cases hK : ev.kind = K
    · obtain ⟨e, hget, hst⟩ := get_if_of_kind ev K hK
      refine ⟨(func e s).1, (func e s).2, [(0, ev)], ?_, by simp, fun h => absurd h hh⟩
      rw [dispatch_eq, hget]
      simp [hf, logged, hst]
    · refine ⟨false, s, [], ?_, by simp, fun h => absurd h hh⟩
      rw [dispatch_other _ _ _ _ hK, List.append_nil]
      have := withHandled_self ev
      rw [hf] at this
      rw [this]

theorem script_bystander (sc : Script σ) :
    ∀ (ev : Event) (s : σ) (log : List (Nat × Event)),
      ∃ b s' extra, (sc.logged 0).exec ev (s, log) = (ev.withHandled b, (s', log ++ extra)) ∧
        (∀ x ∈ extra, x.1 = 0) ∧ (ev.handled = true → b = true) := by
  induction sc with
  | done =>
    intro ev s log
    refine ⟨ev.handled, s, [], ?_, by simp, fun h => h⟩
    simp [Script.logged, Script.exec, withHandled_self]
  | effect f next ih =>
    intro ev s log
    exact ih ev (f s) log
  | Dispatch K func next ih =>
    intro ev s log
    obtain ⟨b, s1, x1, h1, hx1, hb1⟩ := dispatch_bystander K func ev s log
    obtain ⟨b2, s2, x2, h2, hx2, hb2⟩ := ih s1 (ev.withHandled b) s1 (log ++ x1)
    refine ⟨b2, s2, x1 ++ x2, ?_, ?_, ?_⟩
    · simp only [Script.logged, Script.exec, h1, h2, withHandled_withHandled,
        List.append_assoc]
    · intro x hx
      rcases List.mem_append.1 hx with h | h
      · exact hx1 x h
      · exact hx2 x h
    · intro hh
      exact hb2 (by rw [withHandled_handled]; exact hb1 hh)

theorem bystanders_frame (scs : List (Script σ)) :
    ∀ (ev : Event) (s : σ) (log : List (Nat × Event)),
      ∃ b s' extra, listenersLoop (scs.map bystander) ev (s, log) =
          (ev.withHandled b, (s', log ++ extra)) ∧
        (∀ x ∈ extra, x.1 = 0) ∧ (ev.handled = true → b = true) := by
  induction scs with
  | nil =>
    intro ev s log
    refine ⟨ev.handled, s, [], ?_, by simp, fun h => h⟩
    simp [listenersLoop, withHandled_self]
  | cons sc rest ih =>
    intro ev s log
    obtain ⟨b, s1, x1, h1, hx1, hb1⟩ := script_bystander sc ev s log
    obtain ⟨b2, s2, x2, h2, hx2, hb2⟩ := ih (ev.withHandled b) s1 (log ++ x1)
    refine ⟨b2, s2, x1 ++ x2, ?_, ?_, ?_⟩
    · have hstep : bystander sc ev (s, log) = (ev.withHandled b, (s1, log ++ x1)) := h1
      simp only [List.map_cons, listenersLoop, hstep, h2, withHandled_withHandled,
        List.append_assoc]
    · intro x hx
      rcases List.mem_append.1 hx with h | h
      · exact hx1 x h
      · exact hx2 x h
    · intro hh
      exact hb2 (by rw [withHandled_handled]; exact hb1 hh)

theorem invocations_single (t u : Nat) (r : Event) :
    invocations t [(u, r)] = if u = t then [r] else [] := by
  unfold invocations
  by_cases h : u = t <;> simp [List.filter_cons, h]

theorem invocations_cons (t u : Nat) (r : Event) (l : List (Nat × Event)) :
    invocations t ((u, r) :: l) = (if u = t then [r] else []) ++ invocations t l := by
  unfold invocations
  by_cases h : u = t <;> simp [List.filter_cons, h]

/-- The log after the listeners registered from the first of the two on:
the entries of the listeners in between, the one entry of the second of the
two if the record reaches it with `handled` false, and the entries of the
listeners after it. -/
theorem tail_log (K : Kind) (h2 : K.T → σ → Bool × σ) (mid post : List (Script σ))
    (r : Event) (hk : r.kind = K) (s : σ) (log : List (Nat × Event)) :
    ∃ xm xp, (∀ x ∈ xm, x.1 = 0) ∧ (∀ x ∈ xp, x.1 = 0) ∧
      (listenersLoop (mid.map bystander ++ routing 2 K h2 :: post.map bystander)
          r (s, log)).2.2 =
        log ++ xm ++
          (if (listenersLoop (mid.map bystander) r (s, log)).1.handled = false
            then [(2, (listenersLoop (mid.map bystander) r (s, log)).1)] else []) ++ xp := by
  obtain ⟨b2, s2, xm, hmid, hxm, -⟩ := bystanders_frame mid r s log
  have hk2 : (r.withHandled b2).kind = K := by rw [withHandled_kind]; exact hk
  obtain ⟨e2, hget2, hst2⟩ := get_if_of_kind _ _ hk2
  rw [listenersLoop_append, hmid]
  simp only [listenersLoop]
  rw [routing_eq 2 K h2 _ e2 hget2 hst2]
  by_cases hh : (r.withHandled b2).handled = false
  · simp only [if_pos hh]
    obtain ⟨b3, s3, xp, hpost, hxp, -⟩ := bystanders_frame post
      ((r.withHandled b2).withHandled (h2 e2 s2).1) (h2 e2 s2).2
      (log ++ xm ++ [(2, r.withHandled b2)])
    exact ⟨xm, xp, hxm, hxp, by rw [hpost]⟩
  · simp only [if_neg hh]
    obtain ⟨b3, s3, xp, hpost, hxp, -⟩ := bystanders_frame post (r.withHandled b2) s2 (log ++ xm)
    exact ⟨xm, xp, hxm, hxp, by rw [hpost, List.append_nil]⟩

/-- C11, amended.  Take a record whose active alternative is `K` and any
registry in which two listeners both call `Dispatch<K>`, the other listeners
registered before, between and after them being any listeners that act on
the record through the dispatcher only.  Let `r1` be the record as it reaches
the first of the two.  If `r1` has `handled` true, neither callable is
invoked.  Otherwise the callable of the first is invoked, once, on `r1`; if
it returns true the callable of the later listener is not invoked
(first-wins); if it returns false the callable of the later listener is
invoked too, on the same record, unless a listener registered between the
two has set `handled` meanwhile. -/
theorem first_wins_when_consumed (K : Kind) (ev : Event) (hK : ev.kind = K)
    (h1 h2 : K.T → σ → Bool × σ) (pre mid post : List (Script σ))
    (app : Application (σ × List (Nat × Event)))
    (hL : app.s_EventListeners =
      pre.map bystander ++ routing 1 K h1 ::
        (mid.map bystander ++ routing 2 K h2 :: post.map bystander)) (s : σ) :
    ∃ (r1 : Event) (s1 : σ) (log1 : List (Nat × Event)) (e1 : K.T),
      listenersLoop (pre.map bystander) (afterBuiltins ev) (s, []) = (r1, (s1, log1)) ∧
      get_if K r1 = some e1 ∧
      (r1.handled = true →
        invocations 1 (processEvent app (s, []) ev).2.1.2 = [] ∧
        invocations 2 (processEvent app (s, []) ev).2.1.2 = []) ∧
      (r1.handled = false →
        invocations 1 (processEvent app (s, []) ev).2.1.2 = [r1] ∧
        ((h1 e1 s1).1 = true → invocations 2 (processEvent app (s, []) ev).2.1.2 = []) ∧
        ((h1 e1 s1).1 = false →
          invocations 2 (processEvent app (s, []) ev).2.1.2 =
            if (listenersLoop (mid.map bystander) r1
                ((h1 e1 s1).2, log1 ++ [(1, r1)])).1.handled = true
            then [] else [r1])) := by
  obtain ⟨b1, s1, x1, hpre, hx1, -⟩ := bystanders_frame pre (afterBuiltins ev) s []
  rw [List.nil_append] at hpre
  have hk1 : ((afterBuiltins ev).withHandled b1).kind = K := by
    rw [withHandled_kind, afterBuiltins_kind]; exact hK
  obtain ⟨e1, hget1, hst1⟩ := get_if_of_kind _ _ hk1
  refine ⟨(afterBuiltins ev).withHandled b1, s1, x1, e1, hpre, hget1, ?_, ?_⟩
  all_goals
    generalize hr1 : (afterBuiltins ev).withHandled b1 = r1 at hpre hk1 hget1 hst1 ⊢
    have hLOG : (processEvent app (s, []) ev).2.1.2 =
        (listenersLoop (mid.map bystander ++ routing 2 K h2 :: post.map bystander)
          (routing 1 K h1 r1 (s1, x1)).1 (routing 1 K h1 r1 (s1, x1)).2).2.2 := by
      rw [processEvent_exact, hL, listenersLoop_append, hpre]
      rfl
    rw [hLOG, routing_eq 1 K h1 r1 e1 hget1 hst1]
    intro hh
  · -- the record reaches the first listener already handled
    simp only [hh, Bool.true_eq_false, if_false]
    obtain ⟨xm, xp, hxm, hxp, hlog⟩ := tail_log K h2 mid post r1 hk1 s1 x1
    obtain ⟨b2, s2, xm', hmid, -, hb2⟩ := bystanders_frame mid r1 s1 x1
    have h2h : (listenersLoop (mid.map bystander) r1 (s1, x1)).1.handled = true := by
      rw [hmid, withHandled_handled]; exact hb2 hh
    rw [hlog]
    simp only [h2h, Bool.true_eq_false, if_false, List.append_nil, invocations_append,
      invocations_bystanders 1 (by decide) _ hx1, invocations_bystanders 1 (by decide) _ hxm,
      invocations_bystanders 1 (by decide) _ hxp,
      invocations_bystanders 2 (by decide) _ hx1, invocations_bystanders 2 (by decide) _ hxm,
      invocations_bystanders 2 (by decide) _ hxp, and_self]
  · -- the record reaches the first listener unhandled
    simp only [hh, if_true]
    have hself : r1.withHandled false = r1 := by
      have := withHandled_self r1
      rwa [hh] at this
    obtain ⟨xm, xp, hxm, hxp, hlog⟩ := tail_log K h2 mid post
      (r1.withHandled (h1 e1 s1).1) (by rw [withHandled_kind]; exact hk1)
      (h1 e1 s1).2 (x1 ++ [(1, r1)])
    obtain ⟨b2, s2, xm', hmid, -, hb2⟩ := bystanders_frame mid
      (r1.withHandled (h1 e1 s1).1) (h1 e1 s1).2 (x1 ++ [(1, r1)])
    rw [hlog, hmid]
    simp only [withHandled_withHandled, withHandled_handled] at hb2 ⊢
    refine ⟨?_, ?_, ?_⟩
    · by_cases hb : b2 = false
      · simp [hb, invocations_append, invocations_single, invocations_cons,
          invocations_bystanders 1 (by decide) _ hx1, invocations_bystanders 1 (by decide) _ hxm,
          invocations_bystanders 1 (by decide) _ hxp]
      · simp [hb, invocations_append, invocations_single, invocations_cons,
          invocations_bystanders 1 (by decide) _ hx1, invocations_bystanders 1 (by decide) _ hxm,
          invocations_bystanders 1 (by decide) _ hxp]
    · intro hv
      have hb : b2 = true := hb2 hv
      simp [hb, invocations_append, invocations_single, invocations_cons,
        invocations_bystanders 2 (by decide) _ hx1, invocations_bystanders 2 (by decide) _ hxm,
        invocations_bystanders 2 (by decide) _ hxp]
    · intro hv
      rw [hv, hself] at hmid
      rw [hmid, withHandled_handled]
      cases b2 with
      | true =>
        simp [invocations_append, invocations_single, invocations_cons,
          invocations_bystanders 2 (by decide) _ hx1, invocations_bystanders 2 (by decide) _ hxm,
          invocations_bystanders 2 (by decide) _ hxp]
      | false =>
        simp [hself, invocations_append, invocations_single, invocations_cons,
          invocations_bystanders 2 (by decide) _ hx1, invocations_bystanders 2 (by decide) _ hxm,
          invocations_bystanders 2 (by decide) _ hxp]

/-- Witness of the amended C11: three listeners on a `KeyPressed` record.
The first calls `Dispatch<KeyPressedEvent>` with a callable returning false,
a listener registered after it consumes the record, and the third calls
`Dispatch<KeyPressedEvent>` again: the first callable is invoked, the third
is not. -/
theorem first_wins_when_consumed_witness :
    (Event.KeyPressedEvent { keycode := 256, «repeat» := false }).kind = .KeyPressedEvent ∧
    (closingApp [routing 1 .KeyPressedEvent (fun _ (n : Nat) => (false, n + 1)),
        bystander (.Dispatch .KeyPressedEvent (fun _ (n : Nat) => (true, n + 100))
          (fun _ => .done)),
        routing 2 .KeyPressedEvent (fun _ (n : Nat) => (true, n + 10))]).s_EventListeners =
      ([] : List (Script Nat)).map bystander ++
        routing 1 .KeyPressedEvent (fun _ (n : Nat) => (false, n + 1)) ::
        ([Script.Dispatch .KeyPressedEvent (fun _ (n : Nat) => (true, n + 100))
            (fun _ => .done)].map bystander ++
          routing 2 .KeyPressedEvent (fun _ (n : Nat) => (true, n + 10)) ::
          ([] : List (Script Nat)).map bystander) ∧
    invocations 1 (processEvent
        (closingApp [routing 1 .KeyPressedEvent (fun _ (n : Nat) => (false, n + 1)),
          bystander (.Dispatch .KeyPressedEvent (fun _ (n : Nat) => (true, n + 100))
            (fun _ => .done)),
          routing 2 .KeyPressedEvent (fun _ (n : Nat) => (true, n + 10))])
        (0, []) (.KeyPressedEvent { keycode := 256, «repeat» := false })).2.1.2 =
      [.KeyPressedEvent { keycode := 256, «repeat» := false }] ∧
    invocations 2 (processEvent
        (closingApp [routing 1 .KeyPressedEvent (fun _ (n : Nat) => (false, n + 1)),
          bystander (.Dispatch .KeyPressedEvent (fun _ (n : Nat) => (true, n + 100))
            (fun _ => .done)),
          routing 2 .KeyPressedEvent (fun _ (n : Nat) => (true, n + 10))])
        (0, []) (.KeyPressedEvent { keycode := 256, «repeat» := false })).2.1.2 = [] := by
  obtain ⟨r1, s1, log1, e1, hpre, -, -, hF⟩ := first_wins_when_consumed .KeyPressedEvent
    (.KeyPressedEvent { keycode := 256, «repeat» := false }) rfl
    (fun _ (n : Nat) => (false, n + 1)) (fun _ (n : Nat) => (true, n + 10))
    [] [.Dispatch .KeyPressedEvent (fun _ (n : Nat) => (true, n + 100)) (fun _ => .done)] []
    (closingApp [routing 1 .KeyPressedEvent (fun _ (n : Nat) => (false, n + 1)),
      bystander (.Dispatch .KeyPressedEvent (fun _ (n : Nat) => (true, n + 100))
        (fun _ => .done)),
      routing 2 .KeyPressedEvent (fun _ (n : Nat) => (true, n + 10))]) rfl 0
  have hp : (Event.KeyPressedEvent { keycode := 256, «repeat» := false },
      ((0 : Nat), ([] : List (Nat × Event)))) = (r1, (s1, log1)) := hpre
  simp only [Prod.mk.injEq] at hp
  obtain ⟨rfl, rfl, rfl⟩ := hp
  obtain ⟨hi1, -, hi2⟩ := hF rfl
  exact ⟨rfl, rfl, hi1, (hi2 rfl).trans rfl⟩

end Core.Application

/-! ## The two implementations -/

namespace Core

/-- C19 (the two implementations are equivalent).  For every sequence of
`Push` and `Poll` calls and every loop bound, the fixed queue of Events.hpp
and the generic queue of Events/Event.hpp constructed with
`queueSize = s_QueueSize = 256` make the same observations (the same pushes
log a drop, every `Poll` returns the same list, and one fails to return
exactly when the other does) and end in corresponding states.  For every
record, kind and callable the `Dispatch` of the two dispatchers returns the
same record and the same captured state; with the callable instrumented, the
same invocation log. -/
theorem implementations_equivalent {σ : Type} (fuel : Nat)
    (ops : List (Generic.EventQueue.Op Core.Event))
    (K : Core.Kind) (func : K.T → σ → Bool × σ) (ev : Core.Event) (s : σ)
    (tag : Nat) (log : List (Nat × Core.Event)) :
    Generic.EventQueue.run fuel (Generic.EventQueue.EventQueue Core.s_QueueSize) ops =
      (Core.EventQueue.run fuel Core.EventQueue.EventQueue ops).map
        (fun r => (Core.EventQueue.toGeneric r.1, r.2)) ∧
    (Generic.EventQueue.run fuel
        (Generic.EventQueue.EventQueue Core.s_QueueSize : Generic.EventQueue Core.Event)
        ops).map Prod.snd =
      (Core.EventQueue.run fuel Core.EventQueue.EventQueue ops).map Prod.snd ∧
    Generic.EventDispatcher.Dispatch K.alternative func ev s =
      Core.EventDispatcher.Dispatch K func ev s ∧
    Generic.EventDispatcher.Dispatch K.alternative (Core.EventDispatcher.logged tag K func)
        ev (s, log) =
      Core.EventDispatcher.Dispatch K (Core.EventDispatcher.logged tag K func) ev (s, log) := by
  have h1 : Generic.EventQueue.run fuel (Generic.EventQueue.EventQueue Core.s_QueueSize) ops =
      (Core.EventQueue.run fuel Core.EventQueue.EventQueue ops).map
        (fun r => (Core.EventQueue.toGeneric r.1, r.2)) := by
    rw [← Generic.EventQueue.core_run]; rfl
  refine ⟨h1, ?_, Core.EventDispatcher.generic_dispatch_eq _ _ _ _,
    Core.EventDispatcher.generic_dispatch_eq _ _ _ _⟩
  rw [h1]
  cases Core.EventQueue.run fuel Core.EventQueue.EventQueue ops <;> rfl

end Core
